import Mathlib

/-!
Shallow embedding of the market-game matching engine (`src/models.rs`).

Conventions of the embedding:
* `Uuid` and `Instant` are modelled as `Nat` (opaque identifiers, monotone
  timestamps).
* Rust methods that mutate `&mut self` and return `EngineResult<()>` become
  pure functions returning `Except ErrorType` of the updated value.
* `HashMap<Uuid, V>` becomes an association list `List (Uuid × V)`;
  `get(_mut)` is `lookupMap`, and writing back through a mutable borrow is
  `updateMap`, which replaces the value stored at the key.
* `Vec::sort_by` is a stable sort; it is modelled by a stable insertion
  sort (`stableSort`), which computes the same list for the total preorder
  comparators used by the code.
* The `panic!` in `cancel_order` (a `Best` order resting in a book) is
  modelled as the error `InvalidState`, following the error-handling section
  of the design notes.
-/

namespace MarketGame

abbrev Uuid := Nat
abbrev Instant := Nat

inductive ErrorType where
  | AssetNotFound (id : Uuid)
  | PortfolioNotFound (id : Uuid)
  | OrderNotFound (id : Uuid)
  | NotEnoughMatchingOrdersToImmediatelyFillBestOrder
  | CantLockAmountForBestOrder
  | CantSplitOrder
  | InsufficientFreeAmount
  | InsufficientLockedAmount
  | InvalidAssetId
  | InvalidState
  | NoLimitForBestOrder
  | QuantityCantBeZero
  | LimitCantBeZero
  | EngineWasTooBusy
  deriving DecidableEq, Repr

abbrev EngineResult (α : Type) := Except ErrorType α

instance {ε α : Type} [DecidableEq ε] [DecidableEq α] : DecidableEq (Except ε α) := fun
  | .ok a, .ok b =>
    if h : a = b then .isTrue (by rw [h])
    else .isFalse (by intro hc; cases hc; exact h rfl)
  | .ok _, .error _ => .isFalse (by intro hc; cases hc)
  | .error _, .ok _ => .isFalse (by intro hc; cases hc)
  | .error e, .error f =>
    if h : e = f then .isTrue (by rw [h])
    else .isFalse (by intro hc; cases hc; exact h rfl)

inductive OrderMode where
  | Best
  | Limit (price : Nat)
  deriving DecidableEq, Repr

/-- `OrderMode::get_limit`. -/
def OrderMode.get_limit : OrderMode → EngineResult Nat
  | .Limit limit => .ok limit
  | .Best => .error .NoLimitForBestOrder

inductive OrderSide where
  | Sell
  | Buy
  deriving DecidableEq, Repr

structure Order where
  id : Uuid
  asset : Uuid
  mode : OrderMode
  side : OrderSide
  quantity : Nat
  expires : Instant
  created_at : Instant
  portfolio : Uuid
  deriving DecidableEq, Repr

/-- `Order::matches`. -/
def Order.matches (self o : Order) : Bool :=
  let assets_matching : Bool := self.asset = o.asset
  if !assets_matching then false else
  let sides_matching : Bool := match self.side, o.side with
    | .Sell, .Buy => true
    | .Buy, .Sell => true
    | _, _ => false
  if !sides_matching then false else
  let modes_matching : Bool := match self.mode, o.mode with
    | .Limit _, .Best => true
    | .Best, .Limit _ => true
    | .Best, .Best => false
    | .Limit a, .Limit b =>
      match self.side, o.side with
      | .Sell, .Buy => a ≤ b
      | .Buy, .Sell => a ≥ b
      | _, _ => false
  modes_matching

/-- `Order::split`. -/
def Order.split (self : Order) (split_quantity : Nat) :
    EngineResult (Order × Order) :=
  if split_quantity ≥ self.quantity then .error .CantSplitOrder
  else
    .ok ({ self with quantity := split_quantity },
         { self with quantity := self.quantity - split_quantity })

/-- Stable insertion of one element (helper for `stableSort`). -/
def insertSorted (le : α → α → Bool) (x : α) : List α → List α
  | [] => [x]
  | y :: ys => if le x y then x :: y :: ys else y :: insertSorted le x ys

/-- Stable sort, modelling `Vec::sort_by` (which is stable). -/
def stableSort (le : α → α → Bool) : List α → List α
  | [] => []
  | x :: xs => insertSorted le x (stableSort le xs)

structure Book where
  asset_id : Uuid
  sell_orders : List Order
  buy_orders : List Order
  deriving DecidableEq, Repr

namespace Book

/-- `Book::cmp_orders`. -/
def cmp_orders (a b : Order) (revert_price_order : Bool) : Ordering :=
  let ord : Ordering :=
    match a.mode, b.mode with
    | .Best, .Best => .eq
    | .Best, .Limit _ => .lt
    | .Limit _, .Best => .gt
    | .Limit x, .Limit y => compare x y
  let ord := if revert_price_order then ord.swap else ord
  if ord = .eq then compare a.created_at b.created_at else ord

/-- The boolean comparator fed to the stable sort: `a` may stay before `b`
iff `cmp_orders a b false` is not `Greater`. -/
def leOrders (a b : Order) : Bool := cmp_orders a b false ≠ .gt

/-- `Book::sort_buy_orders`. -/
def sort_buy_orders (b : Book) : Book :=
  { b with buy_orders := stableSort leOrders b.buy_orders }

/-- `Book::sort_sell_orders`.  Note: the source sorts `buy_orders` here,
not `sell_orders` (`self.buy_orders.sort_by(...)`). -/
def sort_sell_orders (b : Book) : Book :=
  { b with buy_orders := stableSort leOrders b.buy_orders }

/-- `Book::add_order`. -/
def add_order (b : Book) (order : Order) : EngineResult Book :=
  if order.mode = .Best then
    .error .NotEnoughMatchingOrdersToImmediatelyFillBestOrder
  else
    match order.side with
    | .Sell => .ok (sort_sell_orders { b with sell_orders := b.sell_orders ++ [order] })
    | .Buy => .ok (sort_buy_orders { b with buy_orders := b.buy_orders ++ [order] })

/-- `Book::remove_order`. -/
def remove_order (b : Book) (id : Uuid) : Book :=
  { b with
    sell_orders := b.sell_orders.filter (fun sell => sell.id ≠ id),
    buy_orders := b.buy_orders.filter (fun buy => buy.id ≠ id) }

/-- The loop body of `Book::find_best_candidates_to_fill`. -/
def findCandidatesLoop (order : Order) : List Order → Nat → List Order
  | [], _ => []
  | o :: rest, fill_count =>
    if order.matches o then
      let fill_count := fill_count + o.quantity
      if fill_count ≥ order.quantity then [o]
      else o :: findCandidatesLoop order rest fill_count
    else []

/-- `Book::find_best_candidates_to_fill`. -/
def find_best_candidates_to_fill (b : Book) (order : Order) : List Order :=
  let other_side := match order.side with
    | .Sell => b.buy_orders
    | .Buy => b.sell_orders
  findCandidatesLoop order other_side 0

/-- `Book::get_order`. -/
def get_order (b : Book) (id : Uuid) : EngineResult Order :=
  match b.sell_orders.find? (fun o => o.id = id) with
  | some o => .ok o
  | none =>
    match b.buy_orders.find? (fun o => o.id = id) with
    | some o => .ok o
    | none => .error (.OrderNotFound id)

end Book

structure Asset where
  id : Uuid
  name : String
  deriving DecidableEq, Repr

structure Account where
  total_amount : Nat
  locked_amount : Nat
  deriving DecidableEq, Repr

namespace Account

/-- `Account::new`. -/
def new (initial_amount : Nat) : Account :=
  { total_amount := initial_amount, locked_amount := 0 }

/-- `Account::get_free_amount`. -/
def get_free_amount (a : Account) : Nat := a.total_amount - a.locked_amount

/-- `Account::lock_amount`. -/
def lock_amount (a : Account) (amount_to_lock : Nat) : EngineResult Account :=
  if a.get_free_amount ≥ amount_to_lock then
    .ok { a with locked_amount := a.locked_amount + amount_to_lock }
  else
    .error .InsufficientFreeAmount

/-- `Account::spend_from_locked_amount`. -/
def spend_from_locked_amount (a : Account) (amount_to_spend : Nat) :
    EngineResult Account :=
  if a.locked_amount ≥ amount_to_spend then
    .ok { a with
          locked_amount := a.locked_amount - amount_to_spend,
          total_amount := a.total_amount - amount_to_spend }
  else
    .error .InsufficientLockedAmount

/-- `Account::spend_from_free_amount`. -/
def spend_from_free_amount (a : Account) (amount_to_spend : Nat) :
    EngineResult Account :=
  if a.get_free_amount ≥ amount_to_spend then
    .ok { a with total_amount := a.total_amount - amount_to_spend }
  else
    .error .InsufficientFreeAmount

/-- `Account::unlock_amount`. -/
def unlock_amount (a : Account) (amount_to_unlock : Nat) : EngineResult Account :=
  if a.locked_amount ≥ amount_to_unlock then
    .ok { a with locked_amount := a.locked_amount - amount_to_unlock }
  else
    .error .InsufficientLockedAmount

/-- `Account::add`. -/
def add (a : Account) (amount : Nat) : Account :=
  { a with total_amount := a.total_amount + amount }

end Account

structure Portfolio where
  id : Uuid
  coins : Account
  assets : List (Uuid × Account)
  deriving DecidableEq, Repr

/-- `HashMap::get`: first value stored under the key. -/
def lookupMap {α : Type} : List (Uuid × α) → Uuid → Option α
  | [], _ => none
  | (k, v) :: rest, key => if key = k then some v else lookupMap rest key

/-- `Portfolio::get_asset_account_mut` (the lookup half). -/
def Portfolio.get_asset_account (p : Portfolio) (asset_id : Uuid) :
    EngineResult Account :=
  match lookupMap p.assets asset_id with
  | some a => .ok a
  | none => .error (.AssetNotFound asset_id)

/-- Replace the value stored at key `k` (write-back through a mutable borrow
of a `HashMap` entry). -/
def updateMap (m : List (Uuid × α)) (k : Uuid) (v : α) : List (Uuid × α) :=
  m.map (fun p => if p.1 = k then (k, v) else p)

structure Market where
  bank_account : Nat
  portfolios : List (Uuid × Portfolio)
  assets : List (Uuid × Asset)
  books : List (Uuid × Book)
  deriving DecidableEq, Repr

inductive Event where
  | Order (o : Order)
  | CancelOrder (portfolio : Uuid) (order : Uuid) (asset : Uuid)
  deriving DecidableEq, Repr

namespace Market

/-- `Market::get_order_book(_mut)` (the lookup half). -/
def get_order_book (m : Market) (asset_id : Uuid) : EngineResult Book :=
  match lookupMap m.books asset_id with
  | some b => .ok b
  | none => .error (.AssetNotFound asset_id)

/-- `Market::get_portfolio(_mut)` (the lookup half). -/
def get_portfolio (m : Market) (portfolio_id : Uuid) : EngineResult Portfolio :=
  match lookupMap m.portfolios portfolio_id with
  | some p => .ok p
  | none => .error (.PortfolioNotFound portfolio_id)

/-- Write-back through `get_portfolio_mut`. -/
def set_portfolio (m : Market) (portfolio_id : Uuid) (p : Portfolio) : Market :=
  { m with portfolios := updateMap m.portfolios portfolio_id p }

/-- Write-back through `get_order_book_mut`. -/
def set_book (m : Market) (asset_id : Uuid) (b : Book) : Market :=
  { m with books := updateMap m.books asset_id b }

/-- `Market::bill_fee`. -/
def bill_fee (m : Market) (portfolio_id : Uuid) (amount : Nat) :
    EngineResult Market :=
  match m.get_portfolio portfolio_id with
  | .error e => .error e
  | .ok p =>
    match p.coins.spend_from_free_amount amount with
    | .error e => .error e
    | .ok coins =>
      let m := m.set_portfolio portfolio_id { p with coins := coins }
      .ok { m with bank_account := m.bank_account + amount }

/-- `Market::transfer_asset`. -/
def transfer_asset (m : Market) (from_id to_id asset : Uuid) (amount : Nat)
    (spend_locked_assets : Bool) : EngineResult Market :=
  match m.get_portfolio from_id with
  | .error e => .error e
  | .ok from_portfolio =>
    match from_portfolio.get_asset_account asset with
    | .error e => .error e
    | .ok from_account =>
      match (if spend_locked_assets then from_account.spend_from_locked_amount amount
             else from_account.spend_from_free_amount amount) with
      | .error e => .error e
      | .ok from_account =>
        let m := m.set_portfolio from_id
          { from_portfolio with assets := updateMap from_portfolio.assets asset from_account }
        match m.get_portfolio to_id with
        | .error e => .error e
        | .ok to_portfolio =>
          match to_portfolio.get_asset_account asset with
          | .error e => .error e
          | .ok to_account =>
            .ok (m.set_portfolio to_id
              { to_portfolio with
                assets := updateMap to_portfolio.assets asset (to_account.add amount) })

/-- `Market::transfer_coins`. -/
def transfer_coins (m : Market) (from_id to_id : Uuid) (amount : Nat)
    (spend_locked_coins : Bool) : EngineResult Market :=
  match m.get_portfolio from_id with
  | .error e => .error e
  | .ok from_portfolio =>
    match (if spend_locked_coins then from_portfolio.coins.spend_from_locked_amount amount
           else from_portfolio.coins.spend_from_free_amount amount) with
    | .error e => .error e
    | .ok coins =>
      let m := m.set_portfolio from_id { from_portfolio with coins := coins }
      match m.get_portfolio to_id with
      | .error e => .error e
      | .ok to_portfolio =>
        .ok (m.set_portfolio to_id
          { to_portfolio with coins := to_portfolio.coins.add amount })

/-- `Market::exchange`. -/
def exchange (m : Market) (buyer seller asset_id : Uuid)
    (asset_count price_per_asset : Nat)
    (use_locked_coins use_locked_assets : Bool) : EngineResult Market :=
  match m.transfer_asset seller buyer asset_id asset_count use_locked_assets with
  | .error e => .error e
  | .ok m =>
    m.transfer_coins buyer seller (price_per_asset * asset_count) use_locked_coins

/-- `Market::remove_order`. -/
def remove_order (m : Market) (asset order : Uuid) : EngineResult Market :=
  match m.get_order_book asset with
  | .error e => .error e
  | .ok book => .ok (m.set_book asset (book.remove_order order))

/-- The per-candidate loop of `Market::process_trade`. -/
def tradeLoop (filled_order : Order) (use_locked_coins use_locked_assets : Bool) :
    Market → List Order → EngineResult Market
  | m, [] => .ok m
  | m, other :: rest =>
    match (match filled_order.side, filled_order.mode with
           | _, .Best => other.mode.get_limit
           | _, .Limit limit => .ok limit) with
    | .error e => .error e
    | .ok price_per_asset =>
      let (buyer, seller) := match filled_order.side with
        | .Buy => (filled_order.portfolio, other.portfolio)
        | .Sell => (other.portfolio, filled_order.portfolio)
      match m.exchange buyer seller filled_order.asset other.quantity
          price_per_asset use_locked_coins use_locked_assets with
      | .error e => .error e
      | .ok m =>
        match m.remove_order other.asset other.id with
        | .error e => .error e
        | .ok m => tradeLoop filled_order use_locked_coins use_locked_assets m rest

/-- `Market::process_trade`. -/
def process_trade (m : Market) (filled_order : Order) (other_side : List Order) :
    EngineResult Market :=
  let flags : Bool × Bool := match filled_order.side with
    | .Buy => (false, true)
    | .Sell => (true, false)
  match tradeLoop filled_order flags.1 flags.2 m other_side with
  | .error e => .error e
  | .ok m => m.remove_order filled_order.asset filled_order.id

/-- The lock amount computed in `Market::add_order`. -/
def lockAmountFor (order : Order) : EngineResult Nat :=
  match order.side, order.mode with
  | .Sell, .Limit _ => .ok order.quantity
  | .Buy, .Limit limit => .ok (order.quantity * limit)
  | _, _ => .error .CantLockAmountForBestOrder

/-- `Market::add_order`. -/
def add_order (m : Market) (order : Order) (lock : Bool) : EngineResult Market :=
  match m.get_portfolio order.portfolio with
  | .error e => .error e
  | .ok portfolio =>
    let locked : EngineResult Market :=
      if lock then
        match order.side with
        | .Sell =>
          match portfolio.get_asset_account order.asset with
          | .error e => .error e
          | .ok lock_account =>
            match lockAmountFor order with
            | .error e => .error e
            | .ok amount =>
              match lock_account.lock_amount amount with
              | .error e => .error e
              | .ok lock_account =>
                .ok (m.set_portfolio order.portfolio
                  { portfolio with
                    assets := updateMap portfolio.assets order.asset lock_account })
        | .Buy =>
          match lockAmountFor order with
          | .error e => .error e
          | .ok amount =>
            match portfolio.coins.lock_amount amount with
            | .error e => .error e
            | .ok coins =>
              .ok (m.set_portfolio order.portfolio { portfolio with coins := coins })
      else .ok m
    match locked with
    | .error e => .error e
    | .ok m =>
      match m.get_order_book order.asset with
      | .error e => .error e
      | .ok book =>
        match book.add_order order with
        | .error e => .error e
        | .ok book => .ok (m.set_book order.asset book)

/-- `Market::fill_order`. -/
def fill_order (m : Market) (order : Order) : EngineResult Market :=
  match m.get_order_book order.asset with
  | .error e => .error e
  | .ok book =>
    match h : book.find_best_candidates_to_fill order with
    | [] => m.add_order order true
    | c :: cs =>
      let candidates := c :: cs
      let fill_sum : Nat := (candidates.map (fun cand => cand.quantity)).sum
      if fill_sum > order.quantity then
        match (candidates.getLast (by simp)).split (fill_sum - order.quantity) with
        | .error e => .error e
        | .ok (remainder, filled) =>
          match m.process_trade order (candidates.dropLast ++ [filled]) with
          | .error e => .error e
          | .ok m => m.add_order remainder false
      else if fill_sum < order.quantity then
        match order.split fill_sum with
        | .error e => .error e
        | .ok (filled, remainder) =>
          match m.process_trade filled candidates with
          | .error e => .error e
          | .ok m => m.add_order remainder false
      else
        m.process_trade order candidates

/-- `Market::cancel_order`. -/
def cancel_order (m : Market) (portfolio_id order_id asset_id : Uuid) :
    EngineResult Market :=
  match m.get_order_book asset_id with
  | .error e => .error e
  | .ok book =>
    match book.get_order order_id with
    | .error e => .error e
    | .ok order =>
      if order.asset ≠ asset_id then .error .InvalidAssetId
      else
        match m.get_portfolio portfolio_id with
        | .error e => .error e
        | .ok portfolio =>
          let released : EngineResult Market :=
            match order.side, order.mode with
            | .Sell, .Limit _ =>
              match portfolio.get_asset_account order.asset with
              | .error e => .error e
              | .ok acc =>
                match acc.unlock_amount order.quantity with
                | .error e => .error e
                | .ok acc =>
                  .ok (m.set_portfolio portfolio_id
                    { portfolio with assets := updateMap portfolio.assets order.asset acc })
            | .Buy, .Limit limit =>
              match portfolio.coins.unlock_amount (limit * order.quantity) with
              | .error e => .error e
              | .ok coins =>
                .ok (m.set_portfolio portfolio_id { portfolio with coins := coins })
            | _, .Best => .error .InvalidState
          match released with
          | .error e => .error e
          | .ok m =>
            match m.get_order_book asset_id with
            | .error e => .error e
            | .ok book => .ok (m.set_book asset_id (book.remove_order order_id))

end Market

structure Engine where
  market : Market
  deriving DecidableEq, Repr

namespace Engine

/-- The initiating portfolio of an event (`Engine::bill_fee_for`). -/
def eventPortfolio : Event → Uuid
  | .Order o => o.portfolio
  | .CancelOrder portfolio _ _ => portfolio

/-- `Engine::bill_fee_for`. -/
def bill_fee_for (en : Engine) (event : Event) : EngineResult Market :=
  en.market.bill_fee (eventPortfolio event) 1

/-- `Engine::process`.  The returned pair is the engine after the event and
the result reported to the caller.  Note the snapshot is taken after the fee
has been billed, so the restore on a failed dispatch restores the fee-billed
market. -/
def process (en : Engine) (event : Event) : Engine × EngineResult Unit :=
  match en.bill_fee_for event with
  | .error e => (en, .error e)
  | .ok snapshot =>
    let result := match event with
      | .Order o => snapshot.fill_order o
      | .CancelOrder portfolio order asset =>
        snapshot.cancel_order portfolio order asset
    match result with
    | .ok m2 => ({ market := m2 }, .ok ())
    | .error e => ({ market := snapshot }, .error e)

/-- Processing a sequence of events, keeping the engine after each one. -/
def runEvents (en : Engine) : List Event → Engine
  | [] => en
  | e :: rest => runEvents (en.process e).1 rest

/-- `true` iff every event in the list is processed successfully in turn. -/
def processedOk (en : Engine) : List Event → Bool
  | [] => true
  | e :: rest => ((en.process e).2).toBool && processedOk (en.process e).1 rest

end Engine

/-- The account invariant stated in the data model: `locked ≤ total`. -/
def Account.inv (a : Account) : Prop := a.locked_amount ≤ a.total_amount

/-- Total coins of the portfolio map (the `Σ portfolios.coins.total` of the
conservation invariant). -/
def Market.coinSum (m : Market) : Nat :=
  (m.portfolios.map (fun p => p.2.coins.total_amount)).sum

/-- Total units of asset `a` held by one portfolio (0 when it has no account
for `a`). -/
def Portfolio.assetTotal (p : Portfolio) (a : Uuid) : Nat :=
  match lookupMap p.assets a with
  | some acc => acc.total_amount
  | none => 0

/-- Total units of asset `a` across all portfolios (the per-asset
conservation invariant). -/
def Market.assetSum (m : Market) (a : Uuid) : Nat :=
  (m.portfolios.map (fun p => p.2.assetTotal a)).sum

/-- The observables that every event conserves: the combined coin supply,
every per-asset supply, and the portfolio key structure. -/
def Market.conserves (m m' : Market) : Prop :=
  m'.coinSum + m'.bank_account = m.coinSum + m.bank_account ∧
  (∀ a, m'.assetSum a = m.assetSum a) ∧
  m'.portfolios.map Prod.fst = m.portfolios.map Prod.fst

/-- All accounts of the market satisfy the `locked ≤ total` invariant (the
precondition under which `spend_from_locked_amount` cannot underflow). -/
def Market.accountsInv (m : Market) : Prop :=
  ∀ pr ∈ m.portfolios, pr.2.coins.inv ∧ ∀ ar ∈ pr.2.assets, ar.2.inv

/-- A well-formed portfolio map: no duplicate keys and all accounts satisfy
the invariant. -/
def Market.good (m : Market) : Prop :=
  (m.portfolios.map Prod.fst).Nodup ∧ m.accountsInv

instance (a : Account) : Decidable a.inv :=
  inferInstanceAs (Decidable (a.locked_amount ≤ a.total_amount))

instance (m : Market) : Decidable m.accountsInv :=
  inferInstanceAs
    (Decidable (∀ pr ∈ m.portfolios, pr.2.coins.inv ∧ ∀ ar ∈ pr.2.assets, ar.2.inv))

instance (m : Market) : Decidable m.good :=
  inferInstanceAs
    (Decidable ((m.portfolios.map Prod.fst).Nodup ∧ m.accountsInv))

/-! Concrete sample data used by witnesses and counterexamples. -/

/-- An order on asset `42` expiring at time `1000`. -/
def sampleOrder (id : Uuid) (mode : OrderMode) (side : OrderSide)
    (quantity : Nat) (created : Instant) (pid : Uuid) : Order :=
  { id := id, asset := 42, mode := mode, side := side, quantity := quantity,
    expires := 1000, created_at := created, portfolio := pid }

def samplePortfolio1 : Portfolio := ⟨1, ⟨1000, 0⟩, [(42, ⟨100, 0⟩)]⟩

def samplePortfolio2 : Portfolio := ⟨2, ⟨1000, 0⟩, [(42, ⟨100, 0⟩)]⟩

/-- Two funded portfolios, one asset, one empty book. -/
def sampleMarket : Market :=
  ⟨0, [(1, samplePortfolio1), (2, samplePortfolio2)], [(42, ⟨42, "A"⟩)],
   [(42, ⟨42, [], []⟩)]⟩

def sampleEngine : Engine := ⟨sampleMarket⟩

/-- Portfolio 2 with 3 locked units of asset 42 (backing a resting sell). -/
def samplePortfolio2Locked : Portfolio := ⟨2, ⟨1000, 0⟩, [(42, ⟨100, 3⟩)]⟩

/-- A resting `Sell Limit(2)` of quantity 3 owned by portfolio 2. -/
def restingSell : Order := sampleOrder 301 (.Limit 2) .Sell 3 0 2

/-- Market whose book holds `restingSell`, backed by portfolio 2's lock. -/
def sampleMarketB : Market :=
  ⟨0, [(1, samplePortfolio1), (2, samplePortfolio2Locked)], [(42, ⟨42, "A"⟩)],
   [(42, ⟨42, [restingSell], []⟩)]⟩

/-- Market for the cancel-by-other-portfolio scenario: portfolio 1 has 10
locked units of asset 42, portfolio 2 owns the resting sell backed by 3. -/
def sampleMarketC : Market :=
  ⟨0, [(1, ⟨1, ⟨1000, 0⟩, [(42, ⟨100, 10⟩)]⟩), (2, samplePortfolio2Locked)],
   [(42, ⟨42, "A"⟩)], [(42, ⟨42, [restingSell], []⟩)]⟩

/-- Incoming `Buy Limit(2)` of quantity 3 matching `restingSell` exactly. -/
def incomingBuyC3 : Order := sampleOrder 302 (.Limit 2) .Buy 3 1 1

/-- The market after `restingSell` is fully traded against `incomingBuyC3`:
3 assets moved 2 → 1 and 6 coins moved 1 → 2, the sell's lock consumed. -/
def mfinC3 : Market :=
  ⟨0, [(1, ⟨1, ⟨994, 0⟩, [(42, ⟨103, 0⟩)]⟩), (2, ⟨2, ⟨1006, 0⟩, [(42, ⟨97, 0⟩)]⟩)],
   [(42, ⟨42, "A"⟩)], [(42, ⟨42, [], []⟩)]⟩

/-- Four resting limit orders: buys at prices 1 then 2, sells at 5 then 3. -/
def sampleEventsC2 : List Event :=
  [ .Order (sampleOrder 101 (.Limit 1) .Buy 1 1 1),
    .Order (sampleOrder 102 (.Limit 2) .Buy 1 2 1),
    .Order (sampleOrder 103 (.Limit 5) .Sell 1 3 1),
    .Order (sampleOrder 104 (.Limit 3) .Sell 1 4 1) ]


/-! ### Helper lemmas about the association-map operations -/

theorem lookupMap_cons {α : Type} (a : Uuid) (b : α) (tl : List (Uuid × α))
    (key : Uuid) :
    lookupMap ((a, b) :: tl) key = if key = a then some b else lookupMap tl key :=
  rfl

theorem updateMap_cons {α : Type} (a : Uuid) (b : α) (tl : List (Uuid × α))
    (k : Uuid) (v : α) :
    updateMap ((a, b) :: tl) k v
      = (if a = k then (k, v) else (a, b)) :: updateMap tl k v :=
  rfl

theorem updateMap_of_not_mem {α : Type} (m : List (Uuid × α)) (k : Uuid) (v : α)
    (h : k ∉ m.map Prod.fst) : updateMap m k v = m := by
  induction m with
  | nil => rfl
  | cons hd tl ih =>
    obtain ⟨a, b⟩ := hd
    simp only [List.map_cons, List.mem_cons, not_or] at h
    rw [updateMap_cons, if_neg (fun hc => h.1 hc.symm), ih h.2]

theorem lookupMap_updateMap_self {α : Type} {m : List (Uuid × α)} {k : Uuid}
    {v v' : α} (h : lookupMap m k = some v) :
    lookupMap (updateMap m k v') k = some v' := by
  induction m with
  | nil => simp [lookupMap] at h
  | cons hd tl ih =>
    obtain ⟨a, b⟩ := hd
    rw [updateMap_cons]
    by_cases hk : a = k
    · rw [if_pos hk, lookupMap_cons]
      simp
    · rw [if_neg hk, lookupMap_cons, if_neg (fun hc : k = a => hk hc.symm)]
      rw [lookupMap_cons, if_neg (fun hc : k = a => hk hc.symm)] at h
      exact ih h

theorem lookupMap_updateMap_ne {α : Type} {m : List (Uuid × α)} {k k' : Uuid}
    {v : α} (h : k' ≠ k) : lookupMap (updateMap m k v) k' = lookupMap m k' := by
  induction m with
  | nil => rfl
  | cons hd tl ih =>
    obtain ⟨a, b⟩ := hd
    rw [updateMap_cons]
    by_cases hk : a = k
    · rw [if_pos hk, lookupMap_cons, if_neg (hk ▸ h), lookupMap_cons,
        if_neg (fun hc : k' = a => h (hk ▸ hc)), ih]
    · rw [if_neg hk, lookupMap_cons, lookupMap_cons, ih]

theorem updateMap_keys {α : Type} (m : List (Uuid × α)) (k : Uuid) (v : α) :
    (updateMap m k v).map Prod.fst = m.map Prod.fst := by
  induction m with
  | nil => rfl
  | cons hd tl ih =>
    obtain ⟨a, b⟩ := hd
    rw [updateMap_cons]
    by_cases hk : a = k
    · rw [if_pos hk]
      simp [ih, hk]
    · rw [if_neg hk]
      simp [ih]

theorem sum_updateMap {α : Type} (f : α → Nat) (m : List (Uuid × α)) (k : Uuid)
    (v v' : α) (hnd : (m.map Prod.fst).Nodup) (h : lookupMap m k = some v) :
    ((updateMap m k v').map (fun p => f p.2)).sum + f v
      = (m.map (fun p => f p.2)).sum + f v' := by
  induction m with
  | nil => simp [lookupMap] at h
  | cons hd tl ih =>
    obtain ⟨a, b⟩ := hd
    simp only [List.map_cons, List.nodup_cons] at hnd
    rw [updateMap_cons]
    by_cases hk : a = k
    · subst hk
      rw [lookupMap_cons, if_pos rfl] at h
      have hb : b = v := by simpa using h
      subst hb
      rw [if_pos rfl, updateMap_of_not_mem tl a v' hnd.1]
      simp only [List.map_cons, List.sum_cons]
      omega
    · rw [lookupMap_cons, if_neg (fun hc : k = a => hk hc.symm)] at h
      rw [if_neg hk]
      simp only [List.map_cons, List.sum_cons]
      have := ih hnd.2 h
      omega

/-! ### Helper lemmas about the stable sort -/

theorem insertSorted_perm (le : α → α → Bool) (x : α) (l : List α) :
    (insertSorted le x l).Perm (x :: l) := by
  induction l with
  | nil => exact List.Perm.refl _
  | cons y ys ih =>
    simp only [insertSorted]
    split
    · exact List.Perm.refl _
    · exact (List.Perm.cons y ih).trans (List.Perm.swap x y ys)

theorem stableSort_perm (le : α → α → Bool) (l : List α) :
    (stableSort le l).Perm l := by
  induction l with
  | nil => exact List.Perm.refl _
  | cons x xs ih =>
    exact (insertSorted_perm le x (stableSort le xs)).trans (List.Perm.cons x ih)

theorem find?_eq_of_unique {p : α → Bool} {l l' : List α} (hp : l'.Perm l) {x : α}
    (hx : x ∈ l) (hpx : p x = true) (hu : ∀ y ∈ l, p y = true → y = x) :
    l'.find? p = some x := by
  have hx' : x ∈ l' := hp.symm.subset hx
  have hs : (l'.find? p).isSome := List.find?_isSome.mpr ⟨x, hx', hpx⟩
  obtain ⟨y, hy⟩ := Option.isSome_iff_exists.mp hs
  have h1 := List.find?_some hy
  have h2 := List.mem_of_find?_eq_some hy
  rw [hy, hu y (hp.subset h2) h1]

/-! ### Inversion lemmas for the account operations and lookups -/

theorem lock_amount_ok {a : Account} {n : Nat} {a' : Account}
    (h : a.lock_amount n = .ok a') :
    a' = { a with locked_amount := a.locked_amount + n } ∧
    n ≤ a.total_amount - a.locked_amount := by
  unfold Account.lock_amount at h
  split at h
  · rename_i hg
    cases h
    exact ⟨rfl, hg⟩
  · cases h

theorem unlock_amount_ok {a : Account} {n : Nat} {a' : Account}
    (h : a.unlock_amount n = .ok a') :
    a' = { a with locked_amount := a.locked_amount - n } ∧
    n ≤ a.locked_amount := by
  unfold Account.unlock_amount at h
  split at h
  · rename_i hg
    cases h
    exact ⟨rfl, hg⟩
  · cases h

theorem spend_from_free_ok {a : Account} {n : Nat} {a' : Account}
    (h : a.spend_from_free_amount n = .ok a') :
    a' = { a with total_amount := a.total_amount - n } ∧
    n ≤ a.total_amount - a.locked_amount := by
  unfold Account.spend_from_free_amount at h
  split at h
  · rename_i hg
    cases h
    exact ⟨rfl, hg⟩
  · cases h

theorem spend_from_locked_ok {a : Account} {n : Nat} {a' : Account}
    (h : a.spend_from_locked_amount n = .ok a') :
    a' = { a with total_amount := a.total_amount - n,
                  locked_amount := a.locked_amount - n } ∧
    n ≤ a.locked_amount := by
  unfold Account.spend_from_locked_amount at h
  split at h
  · rename_i hg
    cases h
    exact ⟨rfl, hg⟩
  · cases h

/-- Spending with the locked/free choice abstracted, on an account that
satisfies the invariant: the total drops by exactly `n`, the invariant is
kept, and the locked amount drops by `n` (locked spend) or stays (free
spend). -/
theorem spend_ok {a : Account} {n : Nat} {a' : Account} {flag : Bool}
    (hinv : a.inv)
    (h : (if flag then a.spend_from_locked_amount n
          else a.spend_from_free_amount n) = .ok a') :
    a'.total_amount + n = a.total_amount ∧ a'.inv ∧
    (a'.locked_amount = a.locked_amount ∨
      a'.locked_amount + n = a.locked_amount) := by
  simp only [Account.inv] at hinv ⊢
  cases flag
  · simp only [if_neg Bool.false_ne_true] at h
    obtain ⟨he, hg⟩ := spend_from_free_ok h
    subst he
    refine ⟨show a.total_amount - n + n = a.total_amount by omega,
      show a.locked_amount ≤ a.total_amount - n by omega, Or.inl rfl⟩
  · simp only [if_pos rfl] at h
    obtain ⟨he, hg⟩ := spend_from_locked_ok h
    subst he
    refine ⟨show a.total_amount - n + n = a.total_amount by omega,
      show a.locked_amount - n ≤ a.total_amount - n by omega,
      Or.inr (show a.locked_amount - n + n = a.locked_amount by omega)⟩

theorem get_portfolio_ok {m : Market} {pid : Uuid} {P : Portfolio}
    (h : m.get_portfolio pid = .ok P) : lookupMap m.portfolios pid = some P := by
  unfold Market.get_portfolio at h
  split at h
  · cases h
    assumption
  · cases h

theorem get_order_book_ok {m : Market} {aid : Uuid} {b : Book}
    (h : m.get_order_book aid = .ok b) : lookupMap m.books aid = some b := by
  unfold Market.get_order_book at h
  split at h
  · cases h
    assumption
  · cases h

theorem get_asset_account_ok {P : Portfolio} {aid : Uuid} {acc : Account}
    (h : P.get_asset_account aid = .ok acc) : lookupMap P.assets aid = some acc := by
  unfold Portfolio.get_asset_account at h
  split at h
  · cases h
    assumption
  · cases h

theorem bill_fee_ok {m : Market} {pid : Uuid} {amt : Nat} {m' : Market}
    (h : m.bill_fee pid amt = .ok m') :
    ∃ P, lookupMap m.portfolios pid = some P ∧
      amt ≤ P.coins.total_amount - P.coins.locked_amount ∧
      m' = { m with
             bank_account := m.bank_account + amt,
             portfolios := updateMap m.portfolios pid
               { P with coins := { P.coins with
                   total_amount := P.coins.total_amount - amt } } } := by
  unfold Market.bill_fee at h
  split at h
  · cases h
  · rename_i P hP
    split at h
    · cases h
    · rename_i coins hc
      cases h
      obtain ⟨hc1, hc2⟩ := spend_from_free_ok hc
      subst hc1
      exact ⟨P, get_portfolio_ok hP, hc2, rfl⟩

/-! ### Membership and conservation helpers -/

theorem lookupMap_mem {α : Type} {m : List (Uuid × α)} {k : Uuid} {v : α}
    (h : lookupMap m k = some v) : (k, v) ∈ m := by
  induction m with
  | nil => simp [lookupMap] at h
  | cons hd tl ih =>
    obtain ⟨a, b⟩ := hd
    rw [lookupMap_cons] at h
    by_cases hk : k = a
    · subst hk
      rw [if_pos rfl] at h
      cases h
      exact List.mem_cons_self _ _
    · rw [if_neg hk] at h
      exact List.mem_cons_of_mem _ (ih h)

theorem mem_updateMap {α : Type} {m : List (Uuid × α)} {k : Uuid} {v : α}
    {x : Uuid × α} (h : x ∈ updateMap m k v) : x = (k, v) ∨ x ∈ m := by
  unfold updateMap at h
  obtain ⟨p, hp, he⟩ := List.mem_map.mp h
  by_cases hc : p.1 = k
  · rw [if_pos hc] at he
    exact Or.inl he.symm
  · rw [if_neg hc] at he
    exact Or.inr (he ▸ hp)

theorem conserves_refl (m : Market) : m.conserves m := ⟨rfl, fun _ => rfl, rfl⟩

theorem conserves_trans {m m1 m2 : Market} (h1 : m.conserves m1)
    (h2 : m1.conserves m2) : m.conserves m2 := by
  obtain ⟨a1, b1, c1⟩ := h1
  obtain ⟨a2, b2, c2⟩ := h2
  exact ⟨by omega, fun a => (b2 a).trans (b1 a), c2.trans c1⟩

theorem add_inv {a : Account} (h : a.inv) (n : Nat) : (a.add n).inv := by
  simp only [Account.inv, Account.add] at h ⊢
  omega

theorem set_portfolio_good {m : Market} {k : Uuid} {P' : Portfolio}
    (hg : m.good) (hc : P'.coins.inv) (ha : ∀ ar ∈ P'.assets, ar.2.inv) :
    (m.set_portfolio k P').good := by
  refine ⟨?_, ?_⟩
  · show ((updateMap m.portfolios k P').map Prod.fst).Nodup
    rw [updateMap_keys]
    exact hg.1
  · intro pr hpr
    rcases mem_updateMap hpr with he | hm
    · rw [he]
      exact ⟨hc, ha⟩
    · exact hg.2 pr hm

theorem assetTotal_updateMap {P : Portfolio} {a0 : Uuid} {acc acc' : Account}
    (hl : lookupMap P.assets a0 = some acc) (a : Uuid) :
    Portfolio.assetTotal { P with assets := updateMap P.assets a0 acc' } a
      = if a = a0 then acc'.total_amount else P.assetTotal a := by
  unfold Portfolio.assetTotal
  by_cases hc : a = a0
  · subst hc
    rw [if_pos rfl]
    show (match lookupMap (updateMap P.assets a acc') a with
          | some acc => acc.total_amount
          | none => 0) = acc'.total_amount
    rw [lookupMap_updateMap_self hl]
  · rw [if_neg hc]
    show (match lookupMap (updateMap P.assets a0 acc') a with
          | some acc => acc.total_amount
          | none => 0)
        = (match lookupMap P.assets a with
           | some acc => acc.total_amount
           | none => 0)
    rw [lookupMap_updateMap_ne hc]

theorem transfer_coins_ok {m : Market} {f t : Uuid} {amt : Nat} {flag : Bool}
    {m' : Market} (h : m.transfer_coins f t amt flag = .ok m') :
    ∃ FP coins TP,
      lookupMap m.portfolios f = some FP ∧
      (if flag then FP.coins.spend_from_locked_amount amt
       else FP.coins.spend_from_free_amount amt) = .ok coins ∧
      lookupMap (m.set_portfolio f { FP with coins := coins }).portfolios t
        = some TP ∧
      m' = (m.set_portfolio f { FP with coins := coins }).set_portfolio t
             { TP with coins := TP.coins.add amt } := by
  unfold Market.transfer_coins at h
  split at h
  · cases h
  · rename_i FP hFP
    split at h
    · cases h
    · rename_i coins hcoins
      simp only [] at h
      split at h
      · cases h
      · rename_i TP hTP
        cases h
        exact ⟨FP, coins, TP, get_portfolio_ok hFP, hcoins,
          get_portfolio_ok hTP, rfl⟩

theorem transfer_asset_ok {m : Market} {f t a0 : Uuid} {amt : Nat}
    {flag : Bool} {m' : Market}
    (h : m.transfer_asset f t a0 amt flag = .ok m') :
    ∃ FP FA FA' TP TA,
      lookupMap m.portfolios f = some FP ∧
      lookupMap FP.assets a0 = some FA ∧
      (if flag then FA.spend_from_locked_amount amt
       else FA.spend_from_free_amount amt) = .ok FA' ∧
      lookupMap (m.set_portfolio f
          { FP with assets := updateMap FP.assets a0 FA' }).portfolios t
        = some TP ∧
      lookupMap TP.assets a0 = some TA ∧
      m' = (m.set_portfolio f { FP with assets := updateMap FP.assets a0 FA' }
             ).set_portfolio t
             { TP with assets := updateMap TP.assets a0 (TA.add amt) } := by
  unfold Market.transfer_asset at h
  split at h
  · cases h
  · rename_i FP hFP
    split at h
    · cases h
    · rename_i FA hFA
      split at h
      · cases h
      · rename_i FA' hFA'
        simp only [] at h
        split at h
        · cases h
        · rename_i TP hTP
          split at h
          · cases h
          · rename_i TA hTA
            cases h
            exact ⟨FP, FA, FA', TP, TA, get_portfolio_ok hFP,
              get_asset_account_ok hFA, hFA', get_portfolio_ok hTP,
              get_asset_account_ok hTA, rfl⟩

theorem coinSum_updateMap (pl : List (Uuid × Portfolio)) (k : Uuid)
    (P P' : Portfolio) (hnd : (pl.map Prod.fst).Nodup)
    (hl : lookupMap pl k = some P) :
    ((updateMap pl k P').map (fun p => p.2.coins.total_amount)).sum
        + P.coins.total_amount
      = (pl.map (fun p => p.2.coins.total_amount)).sum
        + P'.coins.total_amount :=
  sum_updateMap (fun q => q.coins.total_amount) pl k P P' hnd hl

theorem assetSum_updateMap (pl : List (Uuid × Portfolio)) (k : Uuid)
    (P P' : Portfolio) (a : Uuid) (hnd : (pl.map Prod.fst).Nodup)
    (hl : lookupMap pl k = some P) :
    ((updateMap pl k P').map (fun p => p.2.assetTotal a)).sum + P.assetTotal a
      = (pl.map (fun p => p.2.assetTotal a)).sum + P'.assetTotal a :=
  sum_updateMap (fun q => q.assetTotal a) pl k P P' hnd hl

theorem conserves_set_portfolio_totals {m : Market} {k : Uuid}
    {P P' : Portfolio} (hg : m.good) (hl : lookupMap m.portfolios k = some P)
    (hct : P'.coins.total_amount = P.coins.total_amount)
    (hat : ∀ a, P'.assetTotal a = P.assetTotal a) :
    m.conserves (m.set_portfolio k P') := by
  have h1 := coinSum_updateMap m.portfolios k P P' hg.1 hl
  rw [hct] at h1
  refine ⟨?_, fun a => ?_, ?_⟩
  · simp only [Market.coinSum, Market.set_portfolio]
    omega
  · have h2 := assetSum_updateMap m.portfolios k P P' a hg.1 hl
    rw [hat a] at h2
    simp only [Market.assetSum, Market.set_portfolio]
    omega
  · simp only [Market.set_portfolio]
    exact updateMap_keys m.portfolios k P'

theorem bill_fee_conserves {m : Market} {pid : Uuid} {amt : Nat} {m' : Market}
    (hg : m.good) (h : m.bill_fee pid amt = .ok m') :
    m.conserves m' ∧ m'.good := by
  obtain ⟨P, hl, hfree, he⟩ := bill_fee_ok h
  subst he
  have hPinv := hg.2 _ (lookupMap_mem hl)
  have h1 := coinSum_updateMap m.portfolios pid P
    { P with coins := { P.coins with
        total_amount := P.coins.total_amount - amt } } hg.1 hl
  simp only [] at h1
  have hPc := hPinv.1
  simp only [Account.inv] at hPc
  have hinv1 : Account.inv { P.coins with
      total_amount := P.coins.total_amount - amt } := by
    simp only [Account.inv]
    show P.coins.locked_amount ≤ P.coins.total_amount - amt
    try simp only [Account.add] at *
    omega
  constructor
  · refine ⟨?_, fun a => ?_, ?_⟩
    · simp only [Market.coinSum]
      try simp only [Account.add] at *
      omega
    · have h2 := assetSum_updateMap m.portfolios pid P
        { P with coins := { P.coins with
            total_amount := P.coins.total_amount - amt } } a hg.1 hl
      have e2 : ∀ pp : Portfolio, Portfolio.assetTotal { pp with
          coins := { pp.coins with
            total_amount := pp.coins.total_amount - amt } } a
          = pp.assetTotal a := fun pp => rfl
      rw [e2 P] at h2
      simp only [Market.assetSum]
      try simp only [Account.add] at *
      omega
    · exact updateMap_keys m.portfolios pid _
  · exact set_portfolio_good hg hinv1 hPinv.2

theorem transfer_coins_conserves {m : Market} {f t : Uuid} {amt : Nat}
    {flag : Bool} {m' : Market} (hg : m.good)
    (h : m.transfer_coins f t amt flag = .ok m') :
    m.conserves m' ∧ m'.good := by
  obtain ⟨FP, coins, TP, hFP, hsp, hTP, he⟩ := transfer_coins_ok h
  subst he
  have hFPinv := hg.2 _ (lookupMap_mem hFP)
  obtain ⟨hts, hinvc, _⟩ := spend_ok hFPinv.1 hsp
  have hts' : coins.total_amount + amt = FP.coins.total_amount := hts
  have hg1 : (m.set_portfolio f { FP with coins := coins }).good :=
    set_portfolio_good hg hinvc hFPinv.2
  have hTPinv := hg1.2 _ (lookupMap_mem hTP)
  have k1 : (m.set_portfolio f { FP with coins := coins }).coinSum
        + FP.coins.total_amount
      = m.coinSum + coins.total_amount :=
    coinSum_updateMap m.portfolios f FP { FP with coins := coins } hg.1 hFP
  have k2 : ((m.set_portfolio f { FP with coins := coins }).set_portfolio t
        { TP with coins := TP.coins.add amt }).coinSum + TP.coins.total_amount
      = (m.set_portfolio f { FP with coins := coins }).coinSum
        + (TP.coins.total_amount + amt) :=
    coinSum_updateMap
      (m.set_portfolio f { FP with coins := coins }).portfolios t TP
      { TP with coins := TP.coins.add amt } hg1.1 hTP
  have ka1 : ∀ a, (m.set_portfolio f { FP with coins := coins }).assetSum a
        + FP.assetTotal a
      = m.assetSum a + FP.assetTotal a :=
    fun a => assetSum_updateMap m.portfolios f FP { FP with coins := coins } a
      hg.1 hFP
  have ka2 : ∀ a, ((m.set_portfolio f { FP with coins := coins }).set_portfolio
        t { TP with coins := TP.coins.add amt }).assetSum a + TP.assetTotal a
      = (m.set_portfolio f { FP with coins := coins }).assetSum a
        + TP.assetTotal a :=
    fun a => assetSum_updateMap
      (m.set_portfolio f { FP with coins := coins }).portfolios t TP
      { TP with coins := TP.coins.add amt } a hg1.1 hTP
  have kb : ((m.set_portfolio f { FP with coins := coins }).set_portfolio t
        { TP with coins := TP.coins.add amt }).bank_account
      = m.bank_account := rfl
  constructor
  · refine ⟨?_, fun a => ?_, ?_⟩
    · rw [kb]
      omega
    · have k3 := ka1 a
      have k4 := ka2 a
      omega
    · show (updateMap _ t _).map Prod.fst = m.portfolios.map Prod.fst
      rw [updateMap_keys]
      show (updateMap _ f _).map Prod.fst = m.portfolios.map Prod.fst
      rw [updateMap_keys]
  · refine set_portfolio_good hg1 ?_ hTPinv.2
    exact add_inv hTPinv.1 amt

theorem transfer_asset_conserves {m : Market} {f t a0 : Uuid} {amt : Nat}
    {flag : Bool} {m' : Market} (hg : m.good)
    (h : m.transfer_asset f t a0 amt flag = .ok m') :
    m.conserves m' ∧ m'.good := by
  obtain ⟨FP, FA, FA', TP, TA, hFP, hFA, hsp, hTP, hTA, he⟩ :=
    transfer_asset_ok h
  subst he
  have hFPinv := hg.2 _ (lookupMap_mem hFP)
  have hFAinv := hFPinv.2 _ (lookupMap_mem hFA)
  obtain ⟨hts, hinva, _⟩ := spend_ok hFAinv hsp
  have hts' : FA'.total_amount + amt = FA.total_amount := hts
  have hFPa : ∀ ar ∈ updateMap FP.assets a0 FA', ar.2.inv := by
    intro ar har
    rcases mem_updateMap har with hh | hh
    · rw [hh]
      exact hinva
    · exact hFPinv.2 ar hh
  have hg1 : (m.set_portfolio f
      { FP with assets := updateMap FP.assets a0 FA' }).good :=
    set_portfolio_good hg hFPinv.1 hFPa
  have hTPinv := hg1.2 _ (lookupMap_mem hTP)
  have hTAinv := hTPinv.2 _ (lookupMap_mem hTA)
  have hTPa : ∀ ar ∈ updateMap TP.assets a0 (TA.add amt), ar.2.inv := by
    intro ar har
    rcases mem_updateMap har with hh | hh
    · rw [hh]
      exact add_inv hTAinv amt
    · exact hTPinv.2 ar hh
  have k1 : (m.set_portfolio f
        { FP with assets := updateMap FP.assets a0 FA' }).coinSum
        + FP.coins.total_amount
      = m.coinSum + FP.coins.total_amount :=
    coinSum_updateMap m.portfolios f FP
      { FP with assets := updateMap FP.assets a0 FA' } hg.1 hFP
  have k2 : ((m.set_portfolio f
        { FP with assets := updateMap FP.assets a0 FA' }).set_portfolio t
        { TP with assets := updateMap TP.assets a0 (TA.add amt) }).coinSum
        + TP.coins.total_amount
      = (m.set_portfolio f
          { FP with assets := updateMap FP.assets a0 FA' }).coinSum
        + TP.coins.total_amount :=
    coinSum_updateMap
      (m.set_portfolio f
        { FP with assets := updateMap FP.assets a0 FA' }).portfolios t TP
      { TP with assets := updateMap TP.assets a0 (TA.add amt) } hg1.1 hTP
  have ka1 : ∀ a, (m.set_portfolio f
        { FP with assets := updateMap FP.assets a0 FA' }).assetSum a
        + FP.assetTotal a
      = m.assetSum a
        + Portfolio.assetTotal
            { FP with assets := updateMap FP.assets a0 FA' } a :=
    fun a => assetSum_updateMap m.portfolios f FP
      { FP with assets := updateMap FP.assets a0 FA' } a hg.1 hFP
  have ka2 : ∀ a, ((m.set_portfolio f
        { FP with assets := updateMap FP.assets a0 FA' }).set_portfolio t
        { TP with assets := updateMap TP.assets a0 (TA.add amt) }).assetSum a
        + TP.assetTotal a
      = (m.set_portfolio f
          { FP with assets := updateMap FP.assets a0 FA' }).assetSum a
        + Portfolio.assetTotal
            { TP with assets := updateMap TP.assets a0 (TA.add amt) } a :=
    fun a => assetSum_updateMap
      (m.set_portfolio f
        { FP with assets := updateMap FP.assets a0 FA' }).portfolios t TP
      { TP with assets := updateMap TP.assets a0 (TA.add amt) } a hg1.1 hTP
  have kb : ((m.set_portfolio f
        { FP with assets := updateMap FP.assets a0 FA' }).set_portfolio t
        { TP with assets := updateMap TP.assets a0 (TA.add amt) }).bank_account
      = m.bank_account := rfl
  have hFAtot : FP.assetTotal a0 = FA.total_amount := by
    unfold Portfolio.assetTotal
    rw [hFA]
  have hTAtot : TP.assetTotal a0 = TA.total_amount := by
    unfold Portfolio.assetTotal
    rw [hTA]
  have hTac : (TA.add amt).total_amount = TA.total_amount + amt := rfl
  constructor
  · refine ⟨?_, fun a => ?_, ?_⟩
    · rw [kb]
      omega
    · have k3 := ka1 a
      have k4 := ka2 a
      rw [assetTotal_updateMap hFA a] at k3
      rw [assetTotal_updateMap hTA a] at k4
      by_cases hc : a = a0
      · subst hc
        rw [if_pos rfl] at k3 k4
        rw [hTac] at k4
        omega
      · rw [if_neg hc] at k3 k4
        omega
    · show (updateMap _ t _).map Prod.fst = m.portfolios.map Prod.fst
      rw [updateMap_keys]
      show (updateMap _ f _).map Prod.fst = m.portfolios.map Prod.fst
      rw [updateMap_keys]
  · exact set_portfolio_good hg1 hTPinv.1 hTPa

theorem exchange_conserves {m : Market} {b s a0 : Uuid} {cnt price : Nat}
    {ulc ula : Bool} {m' : Market} (hg : m.good)
    (h : m.exchange b s a0 cnt price ulc ula = .ok m') :
    m.conserves m' ∧ m'.good := by
  unfold Market.exchange at h
  split at h
  · cases h
  · rename_i m1 h1
    obtain ⟨hc1, hg1⟩ := transfer_asset_conserves hg h1
    obtain ⟨hc2, hg2⟩ := transfer_coins_conserves hg1 h
    exact ⟨conserves_trans hc1 hc2, hg2⟩

theorem remove_order_conserves {m : Market} {a0 oid : Uuid} {m' : Market}
    (hg : m.good) (h : m.remove_order a0 oid = .ok m') :
    m.conserves m' ∧ m'.good ∧ m'.portfolios = m.portfolios := by
  unfold Market.remove_order at h
  split at h
  · cases h
  · cases h
    exact ⟨⟨rfl, fun _ => rfl, rfl⟩, hg, rfl⟩

theorem add_order_conserves {m : Market} {o : Order} {lock : Bool}
    {m' : Market} (hg : m.good) (h : m.add_order o lock = .ok m') :
    m.conserves m' ∧ m'.good := by
  unfold Market.add_order at h
  split at h
  · cases h
  · rename_i P hP
    simp only [] at h
    split at h
    · cases h
    · rename_i m1 hm1
      have hstep : m.conserves m1 ∧ m1.good := by
        split at hm1
        · -- lock = true
          split at hm1
          · -- Sell
            split at hm1
            · cases hm1
            · rename_i FA hFA
              split at hm1
              · cases hm1
              · rename_i amt hamt
                split at hm1
                · cases hm1
                · rename_i FA' hFA'
                  cases hm1
                  have hPinv := hg.2 _ (lookupMap_mem (get_portfolio_ok hP))
                  have hFAl := get_asset_account_ok hFA
                  have hFAinv := hPinv.2 _ (lookupMap_mem hFAl)
                  obtain ⟨hFAe, hFAg⟩ := lock_amount_ok hFA'
                  have hFAt : FA'.total_amount = FA.total_amount := by
                    rw [hFAe]
                  have hat : ∀ a, Portfolio.assetTotal
                      { P with assets := updateMap P.assets o.asset FA' } a
                      = P.assetTotal a := by
                    intro a
                    rw [assetTotal_updateMap hFAl a]
                    by_cases hc : a = o.asset
                    · subst hc
                      rw [if_pos rfl, hFAt]
                      unfold Portfolio.assetTotal
                      rw [hFAl]
                    · rw [if_neg hc]
                  have hFAinv' : FA'.inv := by
                    have := hFAinv
                    simp only [Account.inv] at this ⊢
                    rw [hFAe]
                    show FA.locked_amount + amt ≤ FA.total_amount
                    have hfree : amt ≤ FA.total_amount - FA.locked_amount := hFAg
                    omega
                  refine ⟨conserves_set_portfolio_totals hg
                      (get_portfolio_ok hP) rfl hat,
                    set_portfolio_good hg hPinv.1 ?_⟩
                  intro ar har
                  rcases mem_updateMap har with hh | hh
                  · rw [hh]
                    exact hFAinv'
                  · exact hPinv.2 ar hh
          · -- Buy
            split at hm1
            · cases hm1
            · rename_i amt hamt
              split at hm1
              · cases hm1
              · rename_i coins hcoins
                cases hm1
                have hPinv := hg.2 _ (lookupMap_mem (get_portfolio_ok hP))
                obtain ⟨hce, hcg⟩ := lock_amount_ok hcoins
                have hct : coins.total_amount = P.coins.total_amount := by
                  rw [hce]
                have hcinv : coins.inv := by
                  have := hPinv.1
                  simp only [Account.inv] at this ⊢
                  rw [hce]
                  show P.coins.locked_amount + amt ≤ P.coins.total_amount
                  have hfree : amt ≤ P.coins.total_amount
                      - P.coins.locked_amount := hcg
                  omega
                exact ⟨conserves_set_portfolio_totals hg
                    (get_portfolio_ok hP) hct (fun a => rfl),
                  set_portfolio_good hg hcinv hPinv.2⟩
        · -- lock = false
          cases hm1
          exact ⟨conserves_refl m, hg⟩
      split at h
      · cases h
      · rename_i book hbook
        split at h
        · cases h
        · rename_i book' hbook'
          cases h
          exact ⟨conserves_trans hstep.1 ⟨rfl, fun _ => rfl, rfl⟩, hstep.2⟩

theorem cancel_order_conserves {m : Market} {pid oid aid : Uuid} {m' : Market}
    (hg : m.good) (h : m.cancel_order pid oid aid = .ok m') :
    m.conserves m' ∧ m'.good := by
  unfold Market.cancel_order at h
  split at h
  · cases h
  · rename_i book hbook
    split at h
    · cases h
    · rename_i o ho
      split at h
      · cases h
      · simp only [] at h
        split at h
        · cases h
        · rename_i P hP
          split at h
          · cases h
          · rename_i m1 hm1
            have hstep : m.conserves m1 ∧ m1.good := by
              split at hm1
              · -- Sell Limit
                split at hm1
                · cases hm1
                · rename_i FA hFA
                  split at hm1
                  · cases hm1
                  · rename_i FA' hFA'
                    cases hm1
                    have hPinv := hg.2 _ (lookupMap_mem (get_portfolio_ok hP))
                    have hFAl := get_asset_account_ok hFA
                    have hFAinv := hPinv.2 _ (lookupMap_mem hFAl)
                    obtain ⟨hFAe, hFAg⟩ := unlock_amount_ok hFA'
                    have hFAt : FA'.total_amount = FA.total_amount := by
                      rw [hFAe]
                    have hat : ∀ a, Portfolio.assetTotal
                        { P with assets := updateMap P.assets o.asset FA' } a
                        = P.assetTotal a := by
                      intro a
                      rw [assetTotal_updateMap hFAl a]
                      by_cases hc : a = o.asset
                      · subst hc
                        rw [if_pos rfl, hFAt]
                        unfold Portfolio.assetTotal
                        rw [hFAl]
                      · rw [if_neg hc]
                    have hFAinv' : FA'.inv := by
                      have := hFAinv
                      simp only [Account.inv] at this ⊢
                      rw [hFAe]
                      show FA.locked_amount - o.quantity ≤ FA.total_amount
                      omega
                    refine ⟨conserves_set_portfolio_totals hg
                        (get_portfolio_ok hP) rfl hat,
                      set_portfolio_good hg hPinv.1 ?_⟩
                    intro ar har
                    rcases mem_updateMap har with hh | hh
                    · rw [hh]
                      exact hFAinv'
                    · exact hPinv.2 ar hh
              · -- Buy Limit
                split at hm1
                · cases hm1
                · rename_i coins hcoins
                  cases hm1
                  have hPinv := hg.2 _ (lookupMap_mem (get_portfolio_ok hP))
                  obtain ⟨hce, hcg⟩ := unlock_amount_ok hcoins
                  have hct : coins.total_amount = P.coins.total_amount := by
                    rw [hce]
                  have hcinv : coins.inv := by
                    have := hPinv.1
                    simp only [Account.inv] at this ⊢
                    rw [hce]
                    show P.coins.locked_amount - _ ≤ P.coins.total_amount
                    omega
                  exact ⟨conserves_set_portfolio_totals hg
                      (get_portfolio_ok hP) hct (fun a => rfl),
                    set_portfolio_good hg hcinv hPinv.2⟩
              · cases hm1
            split at h
            · cases h
            · rename_i book2 hbook2
              cases h
              exact ⟨conserves_trans hstep.1 ⟨rfl, fun _ => rfl, rfl⟩, hstep.2⟩

theorem tradeLoop_conserves {o : Order} {ulc ula : Bool} :
    ∀ (others : List Order) (m m' : Market), m.good →
      Market.tradeLoop o ulc ula m others = .ok m' →
      m.conserves m' ∧ m'.good := by
  intro others
  induction others with
  | nil =>
    intro m m' hg h
    cases h
    exact ⟨conserves_refl m, hg⟩
  | cons other rest ih =>
    intro m m' hg h
    unfold Market.tradeLoop at h
    split at h
    · cases h
    · rename_i price hprice
      simp only [] at h
      rcases hos : o.side with _ | _ <;> rw [hos] at h <;> simp only [] at h <;>
      · split at h
        · cases h
        · rename_i m1 hm1
          split at h
          · cases h
          · rename_i m2 hm2
            obtain ⟨hc1, hg1⟩ := exchange_conserves hg hm1
            obtain ⟨hc2, hg2, _⟩ := remove_order_conserves hg1 hm2
            obtain ⟨hc3, hg3⟩ := ih m2 m' hg2 h
            exact ⟨conserves_trans (conserves_trans hc1 hc2) hc3, hg3⟩

theorem process_trade_conserves {m : Market} {o : Order} {others : List Order}
    {m' : Market} (hg : m.good) (h : m.process_trade o others = .ok m') :
    m.conserves m' ∧ m'.good := by
  unfold Market.process_trade at h
  simp only [] at h
  split at h
  · cases h
  · rename_i m1 hm1
    obtain ⟨hc1, hg1⟩ := tradeLoop_conserves others m m1 hg hm1
    obtain ⟨hc2, hg2, _⟩ := remove_order_conserves hg1 h
    exact ⟨conserves_trans hc1 hc2, hg2⟩

theorem fill_order_conserves {m : Market} {o : Order} {m' : Market}
    (hg : m.good) (h : m.fill_order o = .ok m') :
    m.conserves m' ∧ m'.good := by
  unfold Market.fill_order at h
  split at h
  · cases h
  · rename_i book hbook
    split at h
    · exact add_order_conserves hg h
    · rename_i c cs hcand
      simp only [] at h
      split at h
      · -- fill_sum > quantity
        split at h
        · cases h
        · rename_i pair hsplit
          obtain ⟨remainder, filled⟩ := pair
          try simp only [] at h
          split at h
          · cases h
          · rename_i m1 hm1
            obtain ⟨hc1, hg1⟩ := process_trade_conserves hg hm1
            obtain ⟨hc2, hg2⟩ := add_order_conserves hg1 h
            exact ⟨conserves_trans hc1 hc2, hg2⟩
      · split at h
        · -- fill_sum < quantity
          split at h
          · cases h
          · rename_i pair hsplit
            obtain ⟨filled, remainder⟩ := pair
            try simp only [] at h
            split at h
            · cases h
            · rename_i m1 hm1
              obtain ⟨hc1, hg1⟩ := process_trade_conserves hg hm1
              obtain ⟨hc2, hg2⟩ := add_order_conserves hg1 h
              exact ⟨conserves_trans hc1 hc2, hg2⟩
        · exact process_trade_conserves hg h

theorem process_conserves (en : Engine) (event : Event)
    (hg : en.market.good) :
    en.market.conserves (en.process event).1.market ∧
      (en.process event).1.market.good := by
  unfold Engine.process Engine.bill_fee_for
  split
  · exact ⟨conserves_refl _, hg⟩
  · rename_i snap hsnap
    obtain ⟨hc1, hg1⟩ := bill_fee_conserves hg hsnap
    simp only []
    split
    · rename_i m2 hres
      rcases event with o | ⟨pid, oid, aid⟩
      · obtain ⟨hc2, hg2⟩ := fill_order_conserves hg1 hres
        exact ⟨conserves_trans hc1 hc2, hg2⟩
      · obtain ⟨hc2, hg2⟩ := cancel_order_conserves hg1 hres
        exact ⟨conserves_trans hc1 hc2, hg2⟩
    · exact ⟨hc1, hg1⟩

theorem runEvents_conserves (en : Engine) (events : List Event)
    (hg : en.market.good) :
    en.market.conserves (en.runEvents events).market ∧
      (en.runEvents events).market.good := by
  induction events generalizing en with
  | nil => exact ⟨conserves_refl _, hg⟩
  | cons e rest ih =>
    obtain ⟨hc1, hg1⟩ := process_conserves en e hg
    obtain ⟨hc2, hg2⟩ := ih (en.process e).1 hg1
    exact ⟨conserves_trans hc1 hc2, hg2⟩

/-! ### Claim theorems -/

/-- C7: every `Account` satisfies `locked_amount ≤ total_amount` at creation
and after each of the five operations; each operation preserves the invariant
on success and otherwise fails with `InsufficientFreeAmount` or
`InsufficientLockedAmount`; the stated exact arithmetic equalities certify
that no natural-number subtraction truncates (no underflow).  In the pure
embedding a failing operation returns no account, so the account is trivially
unchanged on failure. -/
theorem C7_account_invariant (a : Account) (n k : Nat) (h : a.inv) :
    (Account.new k).inv ∧
    (a.add n).inv ∧
    (∀ a', a.lock_amount n = .ok a' →
      a'.inv ∧ a'.total_amount = a.total_amount ∧
      a'.locked_amount = a.locked_amount + n) ∧
    (∀ e, a.lock_amount n = .error e → e = .InsufficientFreeAmount) ∧
    (∀ a', a.unlock_amount n = .ok a' →
      a'.inv ∧ a'.total_amount = a.total_amount ∧
      a'.locked_amount + n = a.locked_amount) ∧
    (∀ e, a.unlock_amount n = .error e → e = .InsufficientLockedAmount) ∧
    (∀ a', a.spend_from_free_amount n = .ok a' →
      a'.inv ∧ a'.total_amount + n = a.total_amount ∧
      a'.locked_amount = a.locked_amount) ∧
    (∀ e, a.spend_from_free_amount n = .error e → e = .InsufficientFreeAmount) ∧
    (∀ a', a.spend_from_locked_amount n = .ok a' →
      a'.inv ∧ a'.total_amount + n = a.total_amount ∧
      a'.locked_amount + n = a.locked_amount) ∧
    (∀ e, a.spend_from_locked_amount n = .error e →
      e = .InsufficientLockedAmount) := by
  simp only [Account.inv] at h
  refine ⟨?_, ?_, ?_, ?_, ?_, ?_, ?_, ?_, ?_, ?_⟩
  · exact Nat.zero_le k
  · show a.locked_amount ≤ a.total_amount + n
    omega
  · intro a' ha
    unfold Account.lock_amount at ha
    split at ha
    · rename_i hg
      simp only [Account.get_free_amount] at hg
      cases ha
      exact ⟨show a.locked_amount + n ≤ a.total_amount by omega, rfl, rfl⟩
    · cases ha
  · intro e he
    unfold Account.lock_amount at he
    split at he
    · cases he
    · cases he
      rfl
  · intro a' ha
    unfold Account.unlock_amount at ha
    split at ha
    · rename_i hg
      cases ha
      exact ⟨show a.locked_amount - n ≤ a.total_amount by omega, rfl,
        show a.locked_amount - n + n = a.locked_amount by omega⟩
    · cases ha
  · intro e he
    unfold Account.unlock_amount at he
    split at he
    · cases he
    · cases he
      rfl
  · intro a' ha
    unfold Account.spend_from_free_amount at ha
    split at ha
    · rename_i hg
      simp only [Account.get_free_amount] at hg
      cases ha
      exact ⟨show a.locked_amount ≤ a.total_amount - n by omega,
        show a.total_amount - n + n = a.total_amount by omega, rfl⟩
    · cases ha
  · intro e he
    unfold Account.spend_from_free_amount at he
    split at he
    · cases he
    · cases he
      rfl
  · intro a' ha
    unfold Account.spend_from_locked_amount at ha
    split at ha
    · rename_i hg
      cases ha
      exact ⟨show a.locked_amount - n ≤ a.total_amount - n by omega,
        show a.total_amount - n + n = a.total_amount by omega,
        show a.locked_amount - n + n = a.locked_amount by omega⟩
    · cases ha
  · intro e he
    unfold Account.spend_from_locked_amount at he
    split at he
    · cases he
    · cases he
      rfl

/-- Witness for C7 at the concrete account `⟨10, 3⟩`. -/
theorem C7_account_invariant_witness : ((⟨10, 3⟩ : Account).add 2).inv :=
  (C7_account_invariant ⟨10, 3⟩ 2 5 (by simp [Account.inv])).2.1

/-- C6 counterexample: `split 0` on an order of quantity 5 succeeds, although
the precondition `0 < 0` of the claim does not hold, so `split` does not fail
exactly when `0 < q < quantity` fails. -/
theorem C6_counterexample :
    (sampleOrder 9 (.Limit 1) .Sell 5 0 1).split 0
        = .ok ({ sampleOrder 9 (.Limit 1) .Sell 5 0 1 with quantity := 0 },
               sampleOrder 9 (.Limit 1) .Sell 5 0 1) ∧
    ¬ (0 < 0) := by
  decide

/-- C6 (amended): `Order.split q` fails with `CantSplitOrder` exactly when
`q ≥ quantity` (`q = 0` is accepted); on success the two returned orders share
the original's id, asset, portfolio, side, mode, `created_at` and `expires`,
the first has quantity `q`, and the quantities sum to the original. -/
theorem C6_split_spec (o : Order) (q : Nat) :
    (o.split q = .error .CantSplitOrder ↔ o.quantity ≤ q) ∧
    (∀ l r, o.split q = .ok (l, r) →
      q < o.quantity ∧
      l.id = o.id ∧ r.id = o.id ∧ l.asset = o.asset ∧ r.asset = o.asset ∧
      l.portfolio = o.portfolio ∧ r.portfolio = o.portfolio ∧
      l.side = o.side ∧ r.side = o.side ∧ l.mode = o.mode ∧ r.mode = o.mode ∧
      l.created_at = o.created_at ∧ r.created_at = o.created_at ∧
      l.expires = o.expires ∧ r.expires = o.expires ∧
      l.quantity = q ∧ l.quantity + r.quantity = o.quantity) ∧
    (q < o.quantity → ∃ l r, o.split q = .ok (l, r)) := by
  unfold Order.split
  refine ⟨?_, ?_, ?_⟩
  · split
    · rename_i hge
      exact ⟨fun _ => (by omega), fun _ => rfl⟩
    · rename_i hge
      exact ⟨fun hc => (by cases hc), fun hle => absurd hle (by omega)⟩
  · intro l r hlr
    split at hlr
    · cases hlr
    · rename_i hge
      cases hlr
      refine ⟨by omega, rfl, rfl, rfl, rfl, rfl, rfl, rfl, rfl, rfl, rfl, rfl,
        rfl, rfl, rfl, rfl, show q + (o.quantity - q) = o.quantity by omega⟩
  · intro hq
    split
    · exfalso
      rename_i hge
      omega
    · exact ⟨_, _, rfl⟩

/-- Witness for C6's amended theorem: splitting quantity 5 at 2 succeeds. -/
theorem C6_split_spec_witness :
    ∃ l r, (sampleOrder 9 (.Limit 1) .Sell 5 0 1).split 2 = .ok (l, r) :=
  (C6_split_spec (sampleOrder 9 (.Limit 1) .Sell 5 0 1) 2).2.2 (by decide)

/-- C2 (code bug): after four successful events resting two limit buys
(prices 1 then 2) and two limit sells (prices 5 then 3), the book holds the
buys lowest-price-first and the sells in insertion order: `sort_buy_orders`
sorts ascending and `sort_sell_orders` sorts `buy_orders` instead of
`sell_orders`, so neither side is in the best-first order the claim states. -/
theorem C2_sorting_bug :
    sampleEngine.processedOk sampleEventsC2 = true ∧
    ((sampleEngine.runEvents sampleEventsC2).market.get_order_book 42).map
        (fun b => (b.buy_orders.map Order.mode, b.sell_orders.map Order.mode))
      = .ok ([.Limit 1, .Limit 2], [.Limit 5, .Limit 3]) := by
  decide

/-- C5 counterexample: a `Best` buy on an empty book finds no candidates and
the event fails with `CantLockAmountForBestOrder`, not with
`NotEnoughMatchingOrdersToImmediatelyFillBestOrder` as the claim states. -/
theorem C5_counterexample :
    ((sampleMarket.get_order_book 42).map
        (fun b => b.find_best_candidates_to_fill (sampleOrder 201 .Best .Buy 1 1 1))
      = .ok []) ∧
    (sampleEngine.process (.Order (sampleOrder 201 .Best .Buy 1 1 1))).2
      = .error .CantLockAmountForBestOrder ∧
    (sampleEngine.process (.Order (sampleOrder 201 .Best .Buy 1 1 1))).2
      ≠ .error .NotEnoughMatchingOrdersToImmediatelyFillBestOrder := by
  decide

/-- C8 counterexample: one successful event (a resting limit buy) leaves
`Σ coins.total + bank_account` unchanged — the 1-coin fee moves from the
portfolio to the bank — so the sum does not equal its initial value plus the
number of successful events. -/
theorem C8_counterexample :
    (sampleEngine.process (.Order (sampleOrder 101 (.Limit 1) .Buy 1 1 1))).2
      = .ok () ∧
    (sampleEngine.process (.Order (sampleOrder 101 (.Limit 1) .Buy 1 1 1))).1.market.coinSum
        + (sampleEngine.process (.Order (sampleOrder 101 (.Limit 1) .Buy 1 1 1))).1.market.bank_account
      = sampleMarket.coinSum + sampleMarket.bank_account ∧
    sampleMarket.coinSum + sampleMarket.bank_account
      ≠ sampleMarket.coinSum + sampleMarket.bank_account + 1 := by
  decide

/-- C1 counterexample: cancelling an order of an unknown asset fails after the
fee was billed; the snapshot restored on failure was taken after billing, so
the market after the failing event differs from the market before it — the
bank has gained the 1-coin fee. -/
theorem C1_counterexample :
    (sampleEngine.process (.CancelOrder 1 999 7)).2 = .error (.AssetNotFound 7) ∧
    (sampleEngine.process (.CancelOrder 1 999 7)).1.market ≠ sampleEngine.market ∧
    (sampleEngine.process (.CancelOrder 1 999 7)).1.market.bank_account
      = sampleEngine.market.bank_account + 1 := by
  decide

/-- Inversion of `Engine.process` on failure: either the fee billing failed
and the engine is untouched, or the market afterwards is exactly the
fee-billed market (the snapshot is taken after the fee is billed). -/
theorem process_error_inv {en : Engine} {event : Event} {e : ErrorType}
    (h : (en.process event).2 = .error e) :
    (en.process event).1.market = en.market ∨
    en.market.bill_fee (Engine.eventPortfolio event) 1
      = .ok (en.process event).1.market := by
  cases hb : en.market.bill_fee (Engine.eventPortfolio event) 1 with
  | error err =>
    unfold Engine.process Engine.bill_fee_for
    rw [hb]
    exact Or.inl rfl
  | ok snap =>
    unfold Engine.process Engine.bill_fee_for at h ⊢
    rw [hb] at h ⊢
    simp only [] at h ⊢
    cases hres : (match event with
      | Event.Order o => snap.fill_order o
      | Event.CancelOrder portfolio order asset =>
        snap.cancel_order portfolio order asset) with
    | ok m2 =>
      rw [hres] at h
      simp at h
    | error err2 =>
      exact Or.inr rfl

/-- C4: for every event on which `Engine.process` succeeds on a well-formed
market (no duplicate portfolio keys, all accounts with `locked ≤ total`),
`Σ coins.total + bank_account` and, per asset, `Σ assets[a].total` are
unchanged by the event. -/
theorem C4_conservation (en : Engine) (event : Event)
    (hnd : (en.market.portfolios.map Prod.fst).Nodup)
    (hinv : en.market.accountsInv)
    (hok : (en.process event).2 = .ok ()) :
    (en.process event).1.market.coinSum
        + (en.process event).1.market.bank_account
      = en.market.coinSum + en.market.bank_account ∧
    ∀ a, (en.process event).1.market.assetSum a = en.market.assetSum a := by
  obtain ⟨hc, _⟩ := process_conserves en event ⟨hnd, hinv⟩
  exact ⟨hc.1, hc.2.1⟩

/-- Witness for C4: the fee of a successful resting limit buy moves inside
the conserved sum. -/
theorem C4_conservation_witness :
    (sampleEngine.process (.Order (sampleOrder 101 (.Limit 1) .Buy 1 1 1))).1.market.coinSum
        + (sampleEngine.process (.Order (sampleOrder 101 (.Limit 1) .Buy 1 1 1))).1.market.bank_account
      = sampleEngine.market.coinSum + sampleEngine.market.bank_account ∧
    ∀ a, (sampleEngine.process (.Order (sampleOrder 101 (.Limit 1) .Buy 1 1 1))).1.market.assetSum a
      = sampleEngine.market.assetSum a :=
  C4_conservation sampleEngine (.Order (sampleOrder 101 (.Limit 1) .Buy 1 1 1))
    (by decide) (by decide) (by decide)

/-- C8 (amended): after any sequence of events on a well-formed market,
`Σ coins.total + bank_account` equals its initial value: the 1-coin fee moves
from the initiating portfolio to the bank, so every event (successful or
failed) conserves the combined sum; `bank_account` alone grows by 1 per event
whose fee billing succeeds. -/
theorem C8_sum_conserved (en : Engine) (events : List Event)
    (hnd : (en.market.portfolios.map Prod.fst).Nodup)
    (hinv : en.market.accountsInv) :
    (en.runEvents events).market.coinSum
        + (en.runEvents events).market.bank_account
      = en.market.coinSum + en.market.bank_account :=
  (runEvents_conserves en events ⟨hnd, hinv⟩).1.1

/-- Witness for C8's amended theorem on a run of four successful events. -/
theorem C8_sum_conserved_witness :
    (sampleEngine.runEvents sampleEventsC2).market.coinSum
        + (sampleEngine.runEvents sampleEventsC2).market.bank_account
      = sampleEngine.market.coinSum + sampleEngine.market.bank_account :=
  C8_sum_conserved sampleEngine sampleEventsC2 (by decide) (by decide)

/-- C1 (amended): if `Engine.process` returns an error then either the fee
billing itself failed and the market is exactly the market before the event,
or the market equals the market before the event with only the fee applied:
`bank_account` increased by 1 and the initiating portfolio's coin total
decreased by 1 (its locked coins, its asset accounts, all other portfolios
and all books unchanged).  The fee is not reverted, because the snapshot is
taken after the fee is billed. -/
theorem C1_rollback (en : Engine) (event : Event) (e : ErrorType)
    (h : (en.process event).2 = .error e) :
    (en.process event).1.market = en.market ∨
    ∃ P, lookupMap en.market.portfolios (Engine.eventPortfolio event) = some P ∧
      1 ≤ P.coins.total_amount - P.coins.locked_amount ∧
      (en.process event).1.market
        = { en.market with
            bank_account := en.market.bank_account + 1,
            portfolios := updateMap en.market.portfolios
              (Engine.eventPortfolio event)
              { P with coins := { P.coins with
                  total_amount := P.coins.total_amount - 1 } } } := by
  rcases process_error_inv h with hcase | hcase
  · exact Or.inl hcase
  · obtain ⟨P, hl, hfree, he⟩ := bill_fee_ok hcase
    exact Or.inr ⟨P, hl, hfree, he⟩

/-- Witness for C1's amended theorem at a failing cancel of an unknown
asset. -/
theorem C1_rollback_witness :
    (sampleEngine.process (.CancelOrder 1 999 7)).1.market
        = sampleEngine.market ∨
    ∃ P, lookupMap sampleEngine.market.portfolios
        (Engine.eventPortfolio (.CancelOrder 1 999 7)) = some P ∧
      1 ≤ P.coins.total_amount - P.coins.locked_amount ∧
      (sampleEngine.process (.CancelOrder 1 999 7)).1.market
        = { sampleEngine.market with
            bank_account := sampleEngine.market.bank_account + 1,
            portfolios := updateMap sampleEngine.market.portfolios
              (Engine.eventPortfolio (.CancelOrder 1 999 7))
              { P with coins := { P.coins with
                  total_amount := P.coins.total_amount - 1 } } } :=
  C1_rollback sampleEngine (.CancelOrder 1 999 7) (.AssetNotFound 7) (by decide)

/-- C5 (amended): for a `Best` order submitted through `fill_order`: with no
candidates the event fails with `CantLockAmountForBestOrder` (locking is
attempted before the book is reached, and the lock-amount computation rejects
`Best`), provided the portfolio and, for a sell, its asset account exist;
with candidates whose total quantity is below the incoming quantity and a
successful trade, resting the `Best` remainder fails with
`NotEnoughMatchingOrdersToImmediatelyFillBestOrder`. -/
theorem C5_best_order_rejection :
    (∀ (m : Market) (o : Order) (book : Book) (P : Portfolio),
      o.mode = .Best →
      m.get_order_book o.asset = .ok book →
      book.find_best_candidates_to_fill o = [] →
      m.get_portfolio o.portfolio = .ok P →
      (o.side = .Sell → ∃ acc, P.get_asset_account o.asset = .ok acc) →
      m.fill_order o = .error .CantLockAmountForBestOrder) ∧
    (∀ (m m' : Market) (o c : Order) (cs : List Order) (book : Book),
      o.mode = .Best →
      m.get_order_book o.asset = .ok book →
      book.find_best_candidates_to_fill o = c :: cs →
      ((c :: cs).map (fun cand => cand.quantity)).sum < o.quantity →
      m.process_trade
        { o with quantity := ((c :: cs).map (fun cand => cand.quantity)).sum }
        (c :: cs) = .ok m' →
      (∃ P', m'.get_portfolio o.portfolio = .ok P') →
      (∃ book', m'.get_order_book o.asset = .ok book') →
      m.fill_order o
        = .error .NotEnoughMatchingOrdersToImmediatelyFillBestOrder) := by
  constructor
  · intro m o book P hmode hbook hcand hP hacc
    suffices hsuf : ∀ r, m.fill_order o = r →
        r = .error .CantLockAmountForBestOrder by
      exact hsuf _ rfl
    intro r hres
    unfold Market.fill_order at hres
    split at hres
    · rename_i e heq
      rw [hbook] at heq
      cases heq
    · rename_i book2 heq
      rw [hbook] at heq
      cases heq
      split at hres
      · -- no candidates: add_order o true
        unfold Market.add_order at hres
        split at hres
        · rename_i e heq2
          rw [hP] at heq2
          cases heq2
        · rename_i P2 heq2
          rw [hP] at heq2
          cases heq2
          rw [if_pos rfl] at hres
          split at hres
          · -- Sell
            rename_i hside
            obtain ⟨acc, haccl⟩ := hacc hside
            split at hres
            · rename_i e heq3
              rw [haccl] at heq3
              cases heq3
            · rename_i acc2 heq3
              rw [haccl] at heq3
              cases heq3
              rw [show Market.lockAmountFor o = .error .CantLockAmountForBestOrder by
                unfold Market.lockAmountFor
                rw [hside, hmode]] at hres
              split at hres
              · rename_i e heq4
                cases heq4
                cases hres
                rfl
              · rename_i n heq4
                cases heq4
          · -- Buy
            rename_i hside
            rw [show Market.lockAmountFor o = .error .CantLockAmountForBestOrder by
              unfold Market.lockAmountFor
              rw [hside, hmode]] at hres
            split at hres
            · rename_i e heq4
              cases heq4
              cases hres
              rfl
            · rename_i n heq4
              cases heq4
      · rename_i c cs heq2
        rw [hcand] at heq2
        cases heq2
  · intro m m' o c cs book hmode hbook hcand hsum htrade hP' hbook'
    obtain ⟨P', hP'⟩ := hP'
    obtain ⟨book', hbook'⟩ := hbook'
    suffices hsuf : ∀ r, m.fill_order o = r →
        r = .error .NotEnoughMatchingOrdersToImmediatelyFillBestOrder by
      exact hsuf _ rfl
    intro r hres
    unfold Market.fill_order at hres
    split at hres
    · rename_i e heq
      rw [hbook] at heq
      cases heq
    · rename_i book2 heq
      rw [hbook] at heq
      cases heq
      split at hres
      · rename_i heq2
        rw [hcand] at heq2
        cases heq2
      · rename_i c2 cs2 heq2
        rw [hcand] at heq2
        cases heq2
        try simp only [] at hres
        rw [if_neg (by omega)] at hres
        rw [if_pos hsum] at hres
        rw [show Order.split o (((c :: cs).map (fun cand => cand.quantity)).sum)
            = .ok ({ o with quantity :=
                ((c :: cs).map (fun cand => cand.quantity)).sum },
              { o with quantity := o.quantity
                - ((c :: cs).map (fun cand => cand.quantity)).sum }) by
          unfold Order.split
          rw [if_neg (by omega)]] at hres
        try simp only [] at hres
        split at hres
        · rename_i e heq3
          rw [htrade] at heq3
          cases heq3
        · rename_i m2 heq3
          rw [htrade] at heq3
          cases heq3
          unfold Market.add_order at hres
          split at hres
          · rename_i e heq4
            rw [show ({ o with quantity := o.quantity
                - ((c :: cs).map (fun cand => cand.quantity)).sum }
                : Order).portfolio = o.portfolio from rfl] at heq4
            rw [hP'] at heq4
            cases heq4
          · rename_i P2 heq4
            rw [show ({ o with quantity := o.quantity
                - ((c :: cs).map (fun cand => cand.quantity)).sum }
                : Order).portfolio = o.portfolio from rfl] at heq4
            rw [hP'] at heq4
            cases heq4
            rw [if_neg (by simp : ¬ (false = true))] at hres
            try simp only [] at hres
            split at hres
            · rename_i e heq5
              rw [show ({ o with quantity := o.quantity
                  - ((c :: cs).map (fun cand => cand.quantity)).sum }
                  : Order).asset = o.asset from rfl] at heq5
              rw [hbook'] at heq5
              cases heq5
            · rename_i book3 heq5
              rw [show ({ o with quantity := o.quantity
                  - ((c :: cs).map (fun cand => cand.quantity)).sum }
                  : Order).asset = o.asset from rfl] at heq5
              rw [hbook'] at heq5
              cases heq5
              rw [show Book.add_order book'
                  { o with quantity := o.quantity
                    - ((c :: cs).map (fun cand => cand.quantity)).sum }
                  = .error .NotEnoughMatchingOrdersToImmediatelyFillBestOrder by
                unfold Book.add_order
                rw [if_pos (by rw [show ({ o with quantity := o.quantity
                  - ((c :: cs).map (fun cand => cand.quantity)).sum }
                  : Order).mode = o.mode from rfl, hmode])]] at hres
              split at hres
              · rename_i e heq6
                cases heq6
                cases hres
                rfl
              · rename_i b2 heq6
                cases heq6

/-- Witness for C5's amended theorem: a `Best` buy on an empty book fails
with `CantLockAmountForBestOrder`; a `Best` buy partially covered by a
resting sell fails with `NotEnoughMatchingOrdersToImmediatelyFillBestOrder`. -/
theorem C5_best_order_rejection_witness :
    sampleMarket.fill_order (sampleOrder 201 .Best .Buy 1 1 1)
      = .error .CantLockAmountForBestOrder ∧
    sampleMarketB.fill_order (sampleOrder 302 .Best .Buy 5 1 1)
      = .error .NotEnoughMatchingOrdersToImmediatelyFillBestOrder :=
  ⟨C5_best_order_rejection.1 sampleMarket (sampleOrder 201 .Best .Buy 1 1 1)
      ⟨42, [], []⟩ samplePortfolio1 rfl (by decide) (by decide) (by decide)
      (fun hs => by cases hs),
   C5_best_order_rejection.2 sampleMarketB
      ⟨0, [(1, ⟨1, ⟨994, 0⟩, [(42, ⟨103, 0⟩)]⟩),
           (2, ⟨2, ⟨1006, 0⟩, [(42, ⟨97, 0⟩)]⟩)],
       [(42, ⟨42, "A"⟩)], [(42, ⟨42, [], []⟩)]⟩
      (sampleOrder 302 .Best .Buy 5 1 1) restingSell []
      ⟨42, [restingSell], []⟩ rfl (by decide) (by decide) (by decide)
      (by decide) ⟨⟨1, ⟨994, 0⟩, [(42, ⟨103, 0⟩)]⟩, by decide⟩
      ⟨⟨42, [], []⟩, by decide⟩⟩

/-- The effect of a successful `exchange` on the two parties' balances:
`cnt` units of the asset move seller → buyer, `price·cnt` coins move
buyer → seller, each drawn from the locked or free sub-balance as the two
flags dictate. -/
theorem exchange_effect {m m' : Market} {b s a0 : Uuid} {q price : Nat}
    {ulc ula : Bool} {PB PS : Portfolio} {BA SA : Account}
    (hne : b ≠ s)
    (hPB : lookupMap m.portfolios b = some PB)
    (hPS : lookupMap m.portfolios s = some PS)
    (hBA : lookupMap PB.assets a0 = some BA)
    (hSA : lookupMap PS.assets a0 = some SA)
    (hBinv : PB.coins.inv) (hSinv : SA.inv)
    (h : m.exchange b s a0 q price ulc ula = .ok m') :
    ∃ PB' PS' SA',
      lookupMap m'.portfolios b = some PB' ∧
      lookupMap m'.portfolios s = some PS' ∧
      PB'.assets = updateMap PB.assets a0 (BA.add q) ∧
      PB'.coins.total_amount + price * q = PB.coins.total_amount ∧
      (ulc = true → PB'.coins.locked_amount + price * q
        = PB.coins.locked_amount) ∧
      (ulc = false → PB'.coins.locked_amount = PB.coins.locked_amount) ∧
      PS'.assets = updateMap PS.assets a0 SA' ∧
      SA'.total_amount + q = SA.total_amount ∧
      (ula = true → SA'.locked_amount + q = SA.locked_amount) ∧
      (ula = false → SA'.locked_amount = SA.locked_amount) ∧
      PS'.coins.total_amount = PS.coins.total_amount + price * q ∧
      PS'.coins.locked_amount = PS.coins.locked_amount := by
  unfold Market.exchange at h
  split at h
  · cases h
  · rename_i m1 h1
    obtain ⟨FP, FA, FA', TP, TA, hFP, hFA, hsp, hTP, hTA, he1⟩ :=
      transfer_asset_ok h1
    rw [hPS] at hFP
    cases hFP
    rw [hSA] at hFA
    cases hFA
    simp only [Market.set_portfolio] at hTP he1
    rw [lookupMap_updateMap_ne hne, hPB] at hTP
    cases hTP
    rw [hBA] at hTA
    cases hTA
    subst he1
    obtain ⟨FP2, coins, TP2, hFP2, hsp2, hTP2, he2⟩ := transfer_coins_ok h
    simp only [Market.set_portfolio] at hFP2 hTP2 he2
    rw [lookupMap_updateMap_self (show lookupMap (updateMap m.portfolios s
        { PS with assets := updateMap PS.assets a0 FA' }) b = some PB by
      rw [lookupMap_updateMap_ne hne]
      exact hPB)] at hFP2
    cases hFP2
    rw [lookupMap_updateMap_ne (Ne.symm hne),
      lookupMap_updateMap_ne (Ne.symm hne),
      lookupMap_updateMap_self hPS] at hTP2
    cases hTP2
    subst he2
    have s1 : lookupMap (updateMap m.portfolios s
        { PS with assets := updateMap PS.assets a0 FA' }) b = some PB := by
      rw [lookupMap_updateMap_ne hne]
      exact hPB
    have s2 : lookupMap (updateMap (updateMap m.portfolios s
        { PS with assets := updateMap PS.assets a0 FA' }) b
        { PB with assets := updateMap PB.assets a0 (BA.add q) }) b
        = some { PB with assets := updateMap PB.assets a0 (BA.add q) } :=
      lookupMap_updateMap_self s1
    have s3 : lookupMap (updateMap (updateMap (updateMap m.portfolios s
        { PS with assets := updateMap PS.assets a0 FA' }) b
        { PB with assets := updateMap PB.assets a0 (BA.add q) }) b
        (⟨PB.id, coins, updateMap PB.assets a0 (BA.add q)⟩ : Portfolio)) b
        = some (⟨PB.id, coins, updateMap PB.assets a0 (BA.add q)⟩ : Portfolio) :=
      lookupMap_updateMap_self s2
    have s4 : lookupMap (updateMap (updateMap m.portfolios s
        { PS with assets := updateMap PS.assets a0 FA' }) b
        { PB with assets := updateMap PB.assets a0 (BA.add q) }) s
        = some { PS with assets := updateMap PS.assets a0 FA' } := by
      rw [lookupMap_updateMap_ne (Ne.symm hne)]
      exact lookupMap_updateMap_self hPS
    have s5 : lookupMap (updateMap (updateMap (updateMap m.portfolios s
        { PS with assets := updateMap PS.assets a0 FA' }) b
        { PB with assets := updateMap PB.assets a0 (BA.add q) }) b
        (⟨PB.id, coins, updateMap PB.assets a0 (BA.add q)⟩ : Portfolio)) s
        = some { PS with assets := updateMap PS.assets a0 FA' } := by
      rw [lookupMap_updateMap_ne (Ne.symm hne)]
      exact s4
    refine ⟨⟨PB.id, coins, updateMap PB.assets a0 (BA.add q)⟩,
      ⟨PS.id, PS.coins.add (price * q), updateMap PS.assets a0 FA'⟩, FA',
      ?_, ?_, rfl, ?_, ?_, ?_, rfl, ?_, ?_, ?_, rfl, rfl⟩
    · show lookupMap (updateMap (updateMap (updateMap (updateMap m.portfolios s
          { PS with assets := updateMap PS.assets a0 FA' }) b
          { PB with assets := updateMap PB.assets a0 (BA.add q) }) b
          (⟨PB.id, coins, updateMap PB.assets a0 (BA.add q)⟩ : Portfolio)) s
          (⟨PS.id, PS.coins.add (price * q), updateMap PS.assets a0 FA'⟩ : Portfolio)) b = _
      rw [lookupMap_updateMap_ne hne]
      exact s3
    · show lookupMap (updateMap (updateMap (updateMap (updateMap m.portfolios s
          { PS with assets := updateMap PS.assets a0 FA' }) b
          { PB with assets := updateMap PB.assets a0 (BA.add q) }) b
          (⟨PB.id, coins, updateMap PB.assets a0 (BA.add q)⟩ : Portfolio)) s
          (⟨PS.id, PS.coins.add (price * q), updateMap PS.assets a0 FA'⟩ : Portfolio)) s = _
      exact lookupMap_updateMap_self s5
    · have hsp2' : (if ulc then PB.coins.spend_from_locked_amount (price * q)
          else PB.coins.spend_from_free_amount (price * q)) = .ok coins := hsp2
      obtain ⟨ht, _, _⟩ := spend_ok hBinv hsp2'
      exact ht
    · intro hu
      subst hu
      have hsp2' : PB.coins.spend_from_locked_amount (price * q)
          = .ok coins := hsp2
      obtain ⟨he, hg⟩ := spend_from_locked_ok hsp2'
      rw [he]
      show PB.coins.locked_amount - price * q + price * q
        = PB.coins.locked_amount
      omega
    · intro hu
      subst hu
      have hsp2' : PB.coins.spend_from_free_amount (price * q)
          = .ok coins := hsp2
      obtain ⟨he, hg⟩ := spend_from_free_ok hsp2'
      rw [he]
    · obtain ⟨ht, _, _⟩ := spend_ok hSinv hsp
      exact ht
    · intro hu
      subst hu
      have hsp' : SA.spend_from_locked_amount q = .ok FA' := hsp
      obtain ⟨he, hg⟩ := spend_from_locked_ok hsp'
      rw [he]
      show SA.locked_amount - q + q = SA.locked_amount
      omega
    · intro hu
      subst hu
      have hsp' : SA.spend_from_free_amount q = .ok FA' := hsp
      obtain ⟨he, hg⟩ := spend_from_free_ok hsp'
      rw [he]

/-- C3: in `process_trade`, for the candidate at the head of the list: the
settlement price is the resting order's limit when the incoming order is
`Best` and the incoming order's own limit otherwise; exactly
`other.quantity` units of the asset move seller → buyer and
`price · other.quantity` coins buyer → seller; the resting side pays out of
its locked balance and the incoming side out of its free balance (its total
drops with its locked amount unchanged).  Each later candidate is settled by
exactly this step applied to the market the loop has reached, as the
continuation in the conclusion shows. -/
theorem C3_process_trade_step :
    (∀ (m mfin : Market) (filled other : Order) (rest : List Order)
        (PB PS : Portfolio) (BA SA : Account),
      filled.side = .Buy →
      filled.portfolio ≠ other.portfolio →
      lookupMap m.portfolios filled.portfolio = some PB →
      lookupMap m.portfolios other.portfolio = some PS →
      lookupMap PB.assets filled.asset = some BA →
      lookupMap PS.assets filled.asset = some SA →
      PB.coins.inv → SA.inv →
      m.process_trade filled (other :: rest) = .ok mfin →
      ∃ price m1,
        (filled.mode = .Best → other.mode = .Limit price) ∧
        (∀ p, filled.mode = .Limit p → price = p) ∧
        m.exchange filled.portfolio other.portfolio filled.asset
          other.quantity price false true = .ok m1 ∧
        (∃ PB' PS' SA',
          lookupMap m1.portfolios filled.portfolio = some PB' ∧
          lookupMap m1.portfolios other.portfolio = some PS' ∧
          PB'.assets = updateMap PB.assets filled.asset
            (BA.add other.quantity) ∧
          PB'.coins.total_amount + price * other.quantity
            = PB.coins.total_amount ∧
          PB'.coins.locked_amount = PB.coins.locked_amount ∧
          PS'.assets = updateMap PS.assets filled.asset SA' ∧
          SA'.total_amount + other.quantity = SA.total_amount ∧
          SA'.locked_amount + other.quantity = SA.locked_amount ∧
          PS'.coins.total_amount
            = PS.coins.total_amount + price * other.quantity ∧
          PS'.coins.locked_amount = PS.coins.locked_amount) ∧
        (∃ m2 m3, m1.remove_order other.asset other.id = .ok m2 ∧
          Market.tradeLoop filled false true m2 rest = .ok m3 ∧
          m3.remove_order filled.asset filled.id = .ok mfin)) ∧
    (∀ (m mfin : Market) (filled other : Order) (rest : List Order)
        (PB PS : Portfolio) (BA SA : Account),
      filled.side = .Sell →
      other.portfolio ≠ filled.portfolio →
      lookupMap m.portfolios other.portfolio = some PB →
      lookupMap m.portfolios filled.portfolio = some PS →
      lookupMap PB.assets filled.asset = some BA →
      lookupMap PS.assets filled.asset = some SA →
      PB.coins.inv → SA.inv →
      m.process_trade filled (other :: rest) = .ok mfin →
      ∃ price m1,
        (filled.mode = .Best → other.mode = .Limit price) ∧
        (∀ p, filled.mode = .Limit p → price = p) ∧
        m.exchange other.portfolio filled.portfolio filled.asset
          other.quantity price true false = .ok m1 ∧
        (∃ PB' PS' SA',
          lookupMap m1.portfolios other.portfolio = some PB' ∧
          lookupMap m1.portfolios filled.portfolio = some PS' ∧
          PB'.assets = updateMap PB.assets filled.asset
            (BA.add other.quantity) ∧
          PB'.coins.total_amount + price * other.quantity
            = PB.coins.total_amount ∧
          PB'.coins.locked_amount + price * other.quantity
            = PB.coins.locked_amount ∧
          PS'.assets = updateMap PS.assets filled.asset SA' ∧
          SA'.total_amount + other.quantity = SA.total_amount ∧
          SA'.locked_amount = SA.locked_amount ∧
          PS'.coins.total_amount
            = PS.coins.total_amount + price * other.quantity ∧
          PS'.coins.locked_amount = PS.coins.locked_amount) ∧
        (∃ m2 m3, m1.remove_order other.asset other.id = .ok m2 ∧
          Market.tradeLoop filled true false m2 rest = .ok m3 ∧
          m3.remove_order filled.asset filled.id = .ok mfin)) := by
  constructor
  · intro m mfin filled other rest PB PS BA SA hside hne hPB hPS hBA hSA
      hBinv hSinv h
    unfold Market.process_trade at h
    rw [hside] at h
    simp only [] at h
    split at h
    · cases h
    · rename_i m3 htl
      unfold Market.tradeLoop at htl
      rw [hside] at htl
      simp only [] at htl
      split at htl
      · cases htl
      · rename_i price hpr
        split at htl
        · cases htl
        · rename_i m1 hex
          split at htl
          · cases htl
          · rename_i m2 hrm
            have hprice1 : filled.mode = .Best → other.mode = .Limit price := by
              intro hm
              rw [hm] at hpr
              simp only [] at hpr
              unfold OrderMode.get_limit at hpr
              split at hpr
              · rename_i l heq
                cases hpr
                exact heq
              · cases hpr
            have hprice2 : ∀ p, filled.mode = .Limit p → price = p := by
              intro p hm
              rw [hm] at hpr
              simp only [] at hpr
              cases hpr
              rfl
            obtain ⟨PB', PS', SA', e1, e2, e3, e4, e5, e6, e7, e8, e9, e10,
              e11, e12⟩ := exchange_effect hne hPB hPS hBA hSA hBinv hSinv hex
            exact ⟨price, m1, hprice1, hprice2, hex,
              ⟨PB', PS', SA', e1, e2, e3, e4, e6 rfl, e7, e8, e9 rfl, e11,
                e12⟩, ⟨m2, m3, hrm, htl, h⟩⟩
  · intro m mfin filled other rest PB PS BA SA hside hne hPB hPS hBA hSA
      hBinv hSinv h
    unfold Market.process_trade at h
    rw [hside] at h
    simp only [] at h
    split at h
    · cases h
    · rename_i m3 htl
      unfold Market.tradeLoop at htl
      rw [hside] at htl
      simp only [] at htl
      split at htl
      · cases htl
      · rename_i price hpr
        split at htl
        · cases htl
        · rename_i m1 hex
          split at htl
          · cases htl
          · rename_i m2 hrm
            have hprice1 : filled.mode = .Best → other.mode = .Limit price := by
              intro hm
              rw [hm] at hpr
              simp only [] at hpr
              unfold OrderMode.get_limit at hpr
              split at hpr
              · rename_i l heq
                cases hpr
                exact heq
              · cases hpr
            have hprice2 : ∀ p, filled.mode = .Limit p → price = p := by
              intro p hm
              rw [hm] at hpr
              simp only [] at hpr
              cases hpr
              rfl
            obtain ⟨PB', PS', SA', e1, e2, e3, e4, e5, e6, e7, e8, e9, e10,
              e11, e12⟩ := exchange_effect hne hPB hPS hBA hSA hBinv hSinv hex
            exact ⟨price, m1, hprice1, hprice2, hex,
              ⟨PB', PS', SA', e1, e2, e3, e4, e5 rfl, e7, e8, e10 rfl, e11,
                e12⟩, ⟨m2, m3, hrm, htl, h⟩⟩

/-- Witness for C3 at the concrete single-candidate trade of `restingSell`
against `incomingBuyC3`. -/
theorem C3_process_trade_step_witness :
    ∃ price m1,
      (incomingBuyC3.mode = .Best → restingSell.mode = .Limit price) ∧
      (∀ p, incomingBuyC3.mode = .Limit p → price = p) ∧
      sampleMarketB.exchange incomingBuyC3.portfolio restingSell.portfolio
        incomingBuyC3.asset restingSell.quantity price false true = .ok m1 ∧
      (∃ PB' PS' SA',
        lookupMap m1.portfolios incomingBuyC3.portfolio = some PB' ∧
        lookupMap m1.portfolios restingSell.portfolio = some PS' ∧
        PB'.assets = updateMap samplePortfolio1.assets incomingBuyC3.asset
          (Account.add ⟨100, 0⟩ restingSell.quantity) ∧
        PB'.coins.total_amount + price * restingSell.quantity
          = samplePortfolio1.coins.total_amount ∧
        PB'.coins.locked_amount = samplePortfolio1.coins.locked_amount ∧
        PS'.assets = updateMap samplePortfolio2Locked.assets
          incomingBuyC3.asset SA' ∧
        SA'.total_amount + restingSell.quantity
          = (⟨100, 3⟩ : Account).total_amount ∧
        SA'.locked_amount + restingSell.quantity
          = (⟨100, 3⟩ : Account).locked_amount ∧
        PS'.coins.total_amount = samplePortfolio2Locked.coins.total_amount
          + price * restingSell.quantity ∧
        PS'.coins.locked_amount
          = samplePortfolio2Locked.coins.locked_amount) ∧
      (∃ m2 m3, m1.remove_order restingSell.asset restingSell.id = .ok m2 ∧
        Market.tradeLoop incomingBuyC3 false true m2 [] = .ok m3 ∧
        m3.remove_order incomingBuyC3.asset incomingBuyC3.id = .ok mfinC3) :=
  C3_process_trade_step.1 sampleMarketB mfinC3 incomingBuyC3 restingSell []
    samplePortfolio1 samplePortfolio2Locked ⟨100, 0⟩ ⟨100, 3⟩ (by decide)
    (by decide) (by decide) (by decide) (by decide) (by decide) (by decide)
    (by decide) (by decide)

/-- C10: a successful `cancel_order(p, o, a)` releases the cancelled order's
reserved amount to the accounts of the requesting portfolio `p`, not to the
order's owner: whenever `p` differs from the owner and `p`'s corresponding
account has a sufficient locked balance, the cancel succeeds, `p`'s locked
balance is reduced by the order's reserved amount, the owner's portfolio is
unchanged, and the order is removed from the book. -/
theorem C10_cancel_releases_to_requester
    (m : Market) (p oid aid : Uuid) (book : Book) (o : Order) (l : Nat)
    (P : Portfolio)
    (hbook : lookupMap m.books aid = some book)
    (ho : book.get_order oid = .ok o)
    (hasset : o.asset = aid)
    (hmode : o.mode = .Limit l)
    (howner : o.portfolio ≠ p)
    (hP : lookupMap m.portfolios p = some P)
    (hsell : o.side = .Sell → ∃ acc, lookupMap P.assets o.asset = some acc ∧
      o.quantity ≤ acc.locked_amount)
    (hbuy : o.side = .Buy → l * o.quantity ≤ P.coins.locked_amount) :
    ∃ m', m.cancel_order p oid aid = .ok m' ∧
      (∃ P', lookupMap m'.portfolios p = some P' ∧
        (o.side = .Sell → ∃ acc acc',
          lookupMap P.assets o.asset = some acc ∧
          lookupMap P'.assets o.asset = some acc' ∧
          acc'.locked_amount + o.quantity = acc.locked_amount ∧
          acc'.total_amount = acc.total_amount ∧
          P'.coins = P.coins) ∧
        (o.side = .Buy →
          P'.coins.locked_amount + l * o.quantity = P.coins.locked_amount ∧
          P'.coins.total_amount = P.coins.total_amount ∧
          P'.assets = P.assets)) ∧
      lookupMap m'.portfolios o.portfolio
        = lookupMap m.portfolios o.portfolio ∧
      (∃ book', lookupMap m'.books aid = some book' ∧
        (∀ ord ∈ book'.sell_orders, ord.id ≠ oid) ∧
        (∀ ord ∈ book'.buy_orders, ord.id ≠ oid)) := by
  have hbook' : m.get_order_book aid = .ok book := by
    unfold Market.get_order_book
    rw [hbook]
  have hP' : m.get_portfolio p = .ok P := by
    unfold Market.get_portfolio
    rw [hP]
  rcases hside : o.side with _ | _
  · -- Sell
    obtain ⟨acc, hacc, hlocked⟩ := hsell hside
    have haccl : P.get_asset_account o.asset = .ok acc := by
      unfold Portfolio.get_asset_account
      rw [hacc]
    have hunlock : acc.unlock_amount o.quantity
        = .ok { acc with locked_amount := acc.locked_amount - o.quantity } := by
      unfold Account.unlock_amount
      rw [if_pos hlocked]
    refine ⟨((m.set_portfolio p
        (⟨P.id, P.coins, updateMap P.assets o.asset
            ⟨acc.total_amount, acc.locked_amount - o.quantity⟩⟩ : Portfolio)).set_book aid
        (book.remove_order oid)), ?_, ?_, ?_, ?_⟩
    · unfold Market.cancel_order
      rw [hbook']
      try simp only []
      rw [ho]
      try simp only []
      rw [if_neg (by rw [hasset]; simp)]
      rw [hP']
      try simp only []
      rw [hside, hmode]
      try simp only []
      rw [haccl]
      try simp only []
      rw [hunlock]
      try simp only []
      rw [show (m.set_portfolio p
          (⟨P.id, P.coins, updateMap P.assets o.asset
              ⟨acc.total_amount, acc.locked_amount - o.quantity⟩⟩ : Portfolio)).get_order_book aid
          = .ok book from by
        unfold Market.get_order_book Market.set_portfolio
        rw [hbook]]
    · refine ⟨⟨P.id, P.coins, updateMap P.assets o.asset
          ⟨acc.total_amount, acc.locked_amount - o.quantity⟩⟩,
        ?_, ?_, ?_⟩
      · show lookupMap (updateMap m.portfolios p _) p = _
        exact lookupMap_updateMap_self hP
      · intro _
        refine ⟨acc, ⟨acc.total_amount,
            acc.locked_amount - o.quantity⟩, hacc, ?_, ?_, rfl, rfl⟩
        · show lookupMap (updateMap P.assets o.asset _) o.asset = _
          exact lookupMap_updateMap_self hacc
        · show acc.locked_amount - o.quantity + o.quantity
            = acc.locked_amount
          omega
      · intro hb
        cases hb
    · show lookupMap (updateMap m.portfolios p _) o.portfolio = _
      exact lookupMap_updateMap_ne howner
    · refine ⟨book.remove_order oid, ?_, ?_, ?_⟩
      · show lookupMap (updateMap m.books aid _) aid = _
        exact lookupMap_updateMap_self hbook
      · intro ord hord
        have := List.of_mem_filter hord
        simpa using this
      · intro ord hord
        have := List.of_mem_filter hord
        simpa using this
  · -- Buy
    have hb := hbuy hside
    have hunlock : P.coins.unlock_amount (l * o.quantity)
        = .ok { P.coins with locked_amount :=
            P.coins.locked_amount - l * o.quantity } := by
      unfold Account.unlock_amount
      rw [if_pos hb]
    refine ⟨((m.set_portfolio p
        (⟨P.id, ⟨P.coins.total_amount,
            P.coins.locked_amount - l * o.quantity⟩, P.assets⟩
          : Portfolio)).set_book aid
        (book.remove_order oid)), ?_, ?_, ?_, ?_⟩
    · unfold Market.cancel_order
      rw [hbook']
      try simp only []
      rw [ho]
      try simp only []
      rw [if_neg (by rw [hasset]; simp)]
      rw [hP']
      try simp only []
      rw [hside, hmode]
      try simp only []
      rw [hunlock]
      try simp only []
      rw [show (m.set_portfolio p
          (⟨P.id, ⟨P.coins.total_amount,
              P.coins.locked_amount - l * o.quantity⟩, P.assets⟩
            : Portfolio)).get_order_book aid
          = .ok book from by
        unfold Market.get_order_book Market.set_portfolio
        rw [hbook]]
    · refine ⟨⟨P.id, ⟨P.coins.total_amount,
          P.coins.locked_amount - l * o.quantity⟩, P.assets⟩, ?_, ?_, ?_⟩
      · show lookupMap (updateMap m.portfolios p _) p = _
        exact lookupMap_updateMap_self hP
      · intro hs
        cases hs
      · intro _
        refine ⟨?_, rfl, rfl⟩
        show P.coins.locked_amount - l * o.quantity + l * o.quantity
          = P.coins.locked_amount
        omega
    · show lookupMap (updateMap m.portfolios p _) o.portfolio = _
      exact lookupMap_updateMap_ne howner
    · refine ⟨book.remove_order oid, ?_, ?_, ?_⟩
      · show lookupMap (updateMap m.books aid _) aid = _
        exact lookupMap_updateMap_self hbook
      · intro ord hord
        have := List.of_mem_filter hord
        simpa using this
      · intro ord hord
        have := List.of_mem_filter hord
        simpa using this

/-- Witness for C10: portfolio 1 cancels portfolio 2's resting sell; 1's
asset lock drops from 10 to 7, 2's portfolio is untouched, the order leaves
the book. -/
theorem C10_cancel_releases_to_requester_witness :
    ∃ m', sampleMarketC.cancel_order 1 301 42 = .ok m' ∧
      (∃ P', lookupMap m'.portfolios 1 = some P' ∧
        (restingSell.side = .Sell → ∃ acc acc',
          lookupMap (⟨1, ⟨1000, 0⟩, [(42, ⟨100, 10⟩)]⟩
            : Portfolio).assets restingSell.asset = some acc ∧
          lookupMap P'.assets restingSell.asset = some acc' ∧
          acc'.locked_amount + restingSell.quantity = acc.locked_amount ∧
          acc'.total_amount = acc.total_amount ∧
          P'.coins = (⟨1, ⟨1000, 0⟩, [(42, ⟨100, 10⟩)]⟩
            : Portfolio).coins) ∧
        (restingSell.side = .Buy →
          P'.coins.locked_amount + 2 * restingSell.quantity
            = (⟨1, ⟨1000, 0⟩, [(42, ⟨100, 10⟩)]⟩
              : Portfolio).coins.locked_amount ∧
          P'.coins.total_amount = (⟨1, ⟨1000, 0⟩, [(42, ⟨100, 10⟩)]⟩
            : Portfolio).coins.total_amount ∧
          P'.assets = (⟨1, ⟨1000, 0⟩, [(42, ⟨100, 10⟩)]⟩
            : Portfolio).assets)) ∧
      lookupMap m'.portfolios restingSell.portfolio
        = lookupMap sampleMarketC.portfolios restingSell.portfolio ∧
      (∃ book', lookupMap m'.books 42 = some book' ∧
        (∀ ord ∈ book'.sell_orders, ord.id ≠ 301) ∧
        (∀ ord ∈ book'.buy_orders, ord.id ≠ 301)) :=
  C10_cancel_releases_to_requester sampleMarketC 1 301 42
    ⟨42, [restingSell], []⟩ restingSell 2 ⟨1, ⟨1000, 0⟩, [(42, ⟨100, 10⟩)]⟩
    (by decide) (by decide) (by decide) (by decide) (by decide) (by decide)
    (fun _ => ⟨⟨100, 10⟩, by decide, by decide⟩) (fun h => by cases h)


/-! ### Forward evaluation lemmas (used for the place-then-cancel law) -/

theorem get_portfolio_of_lookup (m : Market) (pid : Uuid) (P : Portfolio)
    (h : lookupMap m.portfolios pid = some P) : m.get_portfolio pid = .ok P := by
  unfold Market.get_portfolio
  rw [h]

theorem get_order_book_of_lookup (m : Market) (aid : Uuid) (b : Book)
    (h : lookupMap m.books aid = some b) : m.get_order_book aid = .ok b := by
  unfold Market.get_order_book
  rw [h]

theorem get_asset_account_of_lookup (P : Portfolio) (aid : Uuid) (acc : Account)
    (h : lookupMap P.assets aid = some acc) :
    P.get_asset_account aid = .ok acc := by
  unfold Portfolio.get_asset_account
  rw [h]

theorem spend_from_free_eq (a : Account) (n : Nat)
    (h : a.locked_amount + n ≤ a.total_amount) :
    a.spend_from_free_amount n = .ok ⟨a.total_amount - n, a.locked_amount⟩ := by
  unfold Account.spend_from_free_amount Account.get_free_amount
  rw [if_pos (by omega)]

theorem lock_amount_eq (a : Account) (n : Nat)
    (h : a.locked_amount + n ≤ a.total_amount) :
    a.lock_amount n = .ok ⟨a.total_amount, a.locked_amount + n⟩ := by
  unfold Account.lock_amount Account.get_free_amount
  rw [if_pos (by omega)]

theorem unlock_amount_eq (a : Account) (n : Nat) (h : n ≤ a.locked_amount) :
    a.unlock_amount n = .ok ⟨a.total_amount, a.locked_amount - n⟩ := by
  unfold Account.unlock_amount
  rw [if_pos (by omega)]

theorem bill_fee_eq (m : Market) (pid : Uuid) (P : Portfolio) (amt : Nat)
    (hP : lookupMap m.portfolios pid = some P)
    (hfree : P.coins.locked_amount + amt ≤ P.coins.total_amount) :
    m.bill_fee pid amt = .ok
      ⟨m.bank_account + amt,
       updateMap m.portfolios pid
         ⟨P.id, ⟨P.coins.total_amount - amt, P.coins.locked_amount⟩, P.assets⟩,
       m.assets, m.books⟩ := by
  unfold Market.bill_fee
  rw [get_portfolio_of_lookup m pid P hP]
  try simp only []
  rw [spend_from_free_eq P.coins amt hfree]
  rfl

/-- When the book holds no matching candidates, `fill_order` is exactly
`add_order` with locking. -/
theorem fill_order_no_candidates (m : Market) (o : Order) (book : Book)
    (hbook : lookupMap m.books o.asset = some book)
    (hcand : book.find_best_candidates_to_fill o = []) :
    m.fill_order o = m.add_order o true := by
  unfold Market.fill_order
  rw [get_order_book_of_lookup m o.asset book hbook]
  try simp only []
  split
  · rfl
  · rename_i c cs heq
    rw [hcand] at heq
    cases heq

theorem process_order_eq (m m1 m2 : Market) (o : Order)
    (hb : m.bill_fee o.portfolio 1 = .ok m1)
    (hf : m1.fill_order o = .ok m2) :
    (⟨m⟩ : Engine).process (.Order o) = (⟨m2⟩, .ok ()) := by
  unfold Engine.process Engine.bill_fee_for
  simp only [Engine.eventPortfolio]
  rw [hb]
  try simp only []
  rw [hf]

theorem process_cancel_eq (m m1 m2 : Market) (p oid aid : Uuid)
    (hb : m.bill_fee p 1 = .ok m1)
    (hc : m1.cancel_order p oid aid = .ok m2) :
    (⟨m⟩ : Engine).process (.CancelOrder p oid aid) = (⟨m2⟩, .ok ()) := by
  unfold Engine.process Engine.bill_fee_for
  simp only [Engine.eventPortfolio]
  rw [hb]
  try simp only []
  rw [hc]

/-- Forward evaluation of `add_order` with locking for a resting Sell Limit
order: the quantity is locked on the owner's asset account and the order is
appended to `sell_orders` (only `buy_orders` is ever sorted). -/
theorem add_order_sell_eq (m : Market) (o : Order) (l : Nat) (P : Portfolio)
    (acc : Account) (book : Book)
    (hside : o.side = .Sell) (hmode : o.mode = .Limit l)
    (hP : lookupMap m.portfolios o.portfolio = some P)
    (hacc : lookupMap P.assets o.asset = some acc)
    (hbook : lookupMap m.books o.asset = some book)
    (hq : acc.locked_amount + o.quantity ≤ acc.total_amount) :
    m.add_order o true = .ok
      ⟨m.bank_account,
       updateMap m.portfolios o.portfolio
         ⟨P.id, P.coins, updateMap P.assets o.asset
           ⟨acc.total_amount, acc.locked_amount + o.quantity⟩⟩,
       m.assets,
       updateMap m.books o.asset
         ⟨book.asset_id, book.sell_orders ++ [o],
          stableSort Book.leOrders book.buy_orders⟩⟩ := by
  unfold Market.add_order
  rw [get_portfolio_of_lookup m o.portfolio P hP]
  try simp only []
  rw [if_true]
  rw [hside]
  try simp only []
  rw [get_asset_account_of_lookup P o.asset acc hacc]
  try simp only []
  rw [show Market.lockAmountFor o = .ok o.quantity from by
    unfold Market.lockAmountFor
    rw [hside, hmode]]
  try simp only []
  rw [lock_amount_eq acc o.quantity hq]
  try simp only []
  rw [get_order_book_of_lookup
    (m.set_portfolio o.portfolio
      ⟨P.id, P.coins, updateMap P.assets o.asset
        ⟨acc.total_amount, acc.locked_amount + o.quantity⟩⟩)
    o.asset book hbook]
  try simp only []
  rw [show book.add_order o = .ok
      ⟨book.asset_id, book.sell_orders ++ [o],
       stableSort Book.leOrders book.buy_orders⟩ from by
    unfold Book.add_order
    rw [if_neg (by rw [hmode]; simp), hside]
    rfl]
  rfl

/-- Forward evaluation of `add_order` with locking for a resting Buy Limit
order: `quantity · limit` coins are locked and the order is appended to
`buy_orders`, which is then stably sorted by `cmp_orders _ _ false`. -/
theorem add_order_buy_eq (m : Market) (o : Order) (l : Nat) (P : Portfolio)
    (book : Book)
    (hside : o.side = .Buy) (hmode : o.mode = .Limit l)
    (hP : lookupMap m.portfolios o.portfolio = some P)
    (hbook : lookupMap m.books o.asset = some book)
    (hq : P.coins.locked_amount + o.quantity * l ≤ P.coins.total_amount) :
    m.add_order o true = .ok
      ⟨m.bank_account,
       updateMap m.portfolios o.portfolio
         ⟨P.id, ⟨P.coins.total_amount, P.coins.locked_amount + o.quantity * l⟩,
          P.assets⟩,
       m.assets,
       updateMap m.books o.asset
         ⟨book.asset_id, book.sell_orders,
          stableSort Book.leOrders (book.buy_orders ++ [o])⟩⟩ := by
  unfold Market.add_order
  rw [get_portfolio_of_lookup m o.portfolio P hP]
  try simp only []
  rw [if_true]
  rw [hside]
  try simp only []
  rw [show Market.lockAmountFor o = .ok (o.quantity * l) from by
    unfold Market.lockAmountFor
    rw [hside, hmode]]
  try simp only []
  rw [lock_amount_eq P.coins (o.quantity * l) hq]
  try simp only []
  rw [get_order_book_of_lookup
    (m.set_portfolio o.portfolio
      ⟨P.id, ⟨P.coins.total_amount, P.coins.locked_amount + o.quantity * l⟩,
       P.assets⟩)
    o.asset book hbook]
  try simp only []
  rw [show book.add_order o = .ok
      ⟨book.asset_id, book.sell_orders,
       stableSort Book.leOrders (book.buy_orders ++ [o])⟩ from by
    unfold Book.add_order
    rw [if_neg (by rw [hmode]; simp), hside]
    rfl]
  rfl

/-- Forward evaluation of a successful cancel of a Sell Limit order: the
quantity is unlocked on the requester's asset account and the order id is
removed from the book. -/
theorem cancel_order_sell_eq (m : Market) (p oid aid : Uuid) (book : Book)
    (o : Order) (l : Nat) (P : Portfolio) (acc : Account)
    (hbook : lookupMap m.books aid = some book)
    (ho : book.get_order oid = .ok o)
    (hasset : o.asset = aid)
    (hside : o.side = .Sell) (hmode : o.mode = .Limit l)
    (hP : lookupMap m.portfolios p = some P)
    (hacc : lookupMap P.assets o.asset = some acc)
    (hq : o.quantity ≤ acc.locked_amount) :
    m.cancel_order p oid aid = .ok
      ⟨m.bank_account,
       updateMap m.portfolios p
         ⟨P.id, P.coins, updateMap P.assets o.asset
           ⟨acc.total_amount, acc.locked_amount - o.quantity⟩⟩,
       m.assets,
       updateMap m.books aid (book.remove_order oid)⟩ := by
  unfold Market.cancel_order
  rw [get_order_book_of_lookup m aid book hbook]
  try simp only []
  rw [ho]
  try simp only []
  rw [if_neg (by rw [hasset]; simp)]
  rw [get_portfolio_of_lookup m p P hP]
  try simp only []
  rw [hside, hmode]
  try simp only []
  rw [get_asset_account_of_lookup P o.asset acc hacc]
  try simp only []
  rw [unlock_amount_eq acc o.quantity hq]
  try simp only []
  rw [get_order_book_of_lookup
    (m.set_portfolio p
      ⟨P.id, P.coins, updateMap P.assets o.asset
        ⟨acc.total_amount, acc.locked_amount - o.quantity⟩⟩)
    aid book hbook]
  rfl

/-- Forward evaluation of a successful cancel of a Buy Limit order: the
`limit · quantity` coins are unlocked on the requester's coin account and the
order id is removed from the book. -/
theorem cancel_order_buy_eq (m : Market) (p oid aid : Uuid) (book : Book)
    (o : Order) (l : Nat) (P : Portfolio)
    (hbook : lookupMap m.books aid = some book)
    (ho : book.get_order oid = .ok o)
    (hasset : o.asset = aid)
    (hside : o.side = .Buy) (hmode : o.mode = .Limit l)
    (hP : lookupMap m.portfolios p = some P)
    (hq : l * o.quantity ≤ P.coins.locked_amount) :
    m.cancel_order p oid aid = .ok
      ⟨m.bank_account,
       updateMap m.portfolios p
         ⟨P.id, ⟨P.coins.total_amount, P.coins.locked_amount - l * o.quantity⟩,
          P.assets⟩,
       m.assets,
       updateMap m.books aid (book.remove_order oid)⟩ := by
  unfold Market.cancel_order
  rw [get_order_book_of_lookup m aid book hbook]
  try simp only []
  rw [ho]
  try simp only []
  rw [if_neg (by rw [hasset]; simp)]
  rw [get_portfolio_of_lookup m p P hP]
  try simp only []
  rw [hside, hmode]
  try simp only []
  rw [unlock_amount_eq P.coins (l * o.quantity) hq]
  try simp only []
  rw [get_order_book_of_lookup
    (m.set_portfolio p
      ⟨P.id, ⟨P.coins.total_amount, P.coins.locked_amount - l * o.quantity⟩,
       P.assets⟩)
    aid book hbook]
  rfl

/-- C9: placing a Limit order that matches nothing on the book and then
cancelling it from the same portfolio both succeed, and together they restore
the portfolio's free and locked coin and asset balances except for exactly 2
coins of fees leaving the coin total, matched by a 2-coin increase of
`bank_account`. -/
theorem C9_place_cancel_roundtrip (m : Market) (o : Order) (l : Nat)
    (P : Portfolio) (book : Book)
    (hmode : o.mode = .Limit l)
    (hP : lookupMap m.portfolios o.portfolio = some P)
    (hbook : lookupMap m.books o.asset = some book)
    (hcand : book.find_best_candidates_to_fill o = [])
    (hfresh : ∀ ord ∈ book.sell_orders ++ book.buy_orders, ord.id ≠ o.id)
    (hcoins : P.coins.locked_amount + 2 ≤ P.coins.total_amount)
    (hsell : o.side = .Sell → ∃ acc, lookupMap P.assets o.asset = some acc ∧
      acc.locked_amount + o.quantity ≤ acc.total_amount)
    (hbuy : o.side = .Buy →
      P.coins.locked_amount + o.quantity * l + 2 ≤ P.coins.total_amount) :
    ∃ en1 en2 : Engine,
      (⟨m⟩ : Engine).process (.Order o) = (en1, .ok ()) ∧
      en1.process (.CancelOrder o.portfolio o.id o.asset) = (en2, .ok ()) ∧
      ∃ P', lookupMap en2.market.portfolios o.portfolio = some P' ∧
        P'.coins.total_amount + 2 = P.coins.total_amount ∧
        P'.coins.locked_amount = P.coins.locked_amount ∧
        (∀ a, lookupMap P'.assets a = lookupMap P.assets a) ∧
        en2.market.bank_account = m.bank_account + 2 := by
  have hfs : book.sell_orders.find? (fun ord => ord.id = o.id) = none := by
    rw [List.find?_eq_none]
    intro x hx
    simp only [decide_eq_true_eq]
    exact hfresh x (List.mem_append_left _ hx)
  have hbill1 : m.bill_fee o.portfolio 1 = .ok
      ⟨m.bank_account + 1,
       updateMap m.portfolios o.portfolio
         ⟨P.id, ⟨P.coins.total_amount - 1, P.coins.locked_amount⟩, P.assets⟩,
       m.assets, m.books⟩ :=
    bill_fee_eq m o.portfolio P 1 hP (by omega)
  rcases hside : o.side with _ | _
  · -- Sell: the quantity is locked on the asset account and released again
    obtain ⟨acc, hacc, haccq⟩ := hsell hside
    have hfill : (⟨m.bank_account + 1,
        updateMap m.portfolios o.portfolio
          ⟨P.id, ⟨P.coins.total_amount - 1, P.coins.locked_amount⟩, P.assets⟩,
        m.assets, m.books⟩ : Market).fill_order o = .ok
        ⟨m.bank_account + 1,
         updateMap (updateMap m.portfolios o.portfolio
             ⟨P.id, ⟨P.coins.total_amount - 1, P.coins.locked_amount⟩,
              P.assets⟩)
           o.portfolio
           ⟨P.id, ⟨P.coins.total_amount - 1, P.coins.locked_amount⟩,
            updateMap P.assets o.asset
              ⟨acc.total_amount, acc.locked_amount + o.quantity⟩⟩,
         m.assets,
         updateMap m.books o.asset
           ⟨book.asset_id, book.sell_orders ++ [o],
            stableSort Book.leOrders book.buy_orders⟩⟩ := by
      rw [fill_order_no_candidates
        ⟨m.bank_account + 1,
         updateMap m.portfolios o.portfolio
           ⟨P.id, ⟨P.coins.total_amount - 1, P.coins.locked_amount⟩,
            P.assets⟩,
         m.assets, m.books⟩ o book hbook hcand]
      exact add_order_sell_eq _ o l
        ⟨P.id, ⟨P.coins.total_amount - 1, P.coins.locked_amount⟩, P.assets⟩
        acc book hside hmode (lookupMap_updateMap_self hP) hacc hbook haccq
    have hproc1 : (⟨m⟩ : Engine).process (.Order o) =
        (⟨⟨m.bank_account + 1,
           updateMap (updateMap m.portfolios o.portfolio
               ⟨P.id, ⟨P.coins.total_amount - 1, P.coins.locked_amount⟩,
                P.assets⟩)
             o.portfolio
             ⟨P.id, ⟨P.coins.total_amount - 1, P.coins.locked_amount⟩,
              updateMap P.assets o.asset
                ⟨acc.total_amount, acc.locked_amount + o.quantity⟩⟩,
           m.assets,
           updateMap m.books o.asset
             ⟨book.asset_id, book.sell_orders ++ [o],
              stableSort Book.leOrders book.buy_orders⟩⟩⟩, .ok ()) :=
      process_order_eq m _ _ o hbill1 hfill
    have hgetord : (⟨book.asset_id, book.sell_orders ++ [o],
        stableSort Book.leOrders book.buy_orders⟩ : Book).get_order o.id
        = .ok o := by
      unfold Book.get_order
      try simp only []
      rw [show (book.sell_orders ++ [o]).find? (fun ord => ord.id = o.id)
          = some o from by
        rw [List.find?_append, hfs]
        simp [List.find?]]
    have hbill2 : (⟨m.bank_account + 1,
        updateMap (updateMap m.portfolios o.portfolio
            ⟨P.id, ⟨P.coins.total_amount - 1, P.coins.locked_amount⟩,
             P.assets⟩)
          o.portfolio
          ⟨P.id, ⟨P.coins.total_amount - 1, P.coins.locked_amount⟩,
           updateMap P.assets o.asset
             ⟨acc.total_amount, acc.locked_amount + o.quantity⟩⟩,
        m.assets,
        updateMap m.books o.asset
          ⟨book.asset_id, book.sell_orders ++ [o],
           stableSort Book.leOrders book.buy_orders⟩⟩ : Market).bill_fee
        o.portfolio 1 = .ok
        ⟨m.bank_account + 1 + 1,
         updateMap (updateMap (updateMap m.portfolios o.portfolio
             ⟨P.id, ⟨P.coins.total_amount - 1, P.coins.locked_amount⟩,
              P.assets⟩)
           o.portfolio
           ⟨P.id, ⟨P.coins.total_amount - 1, P.coins.locked_amount⟩,
            updateMap P.assets o.asset
              ⟨acc.total_amount, acc.locked_amount + o.quantity⟩⟩)
          o.portfolio
          ⟨P.id, ⟨P.coins.total_amount - 1 - 1, P.coins.locked_amount⟩,
           updateMap P.assets o.asset
             ⟨acc.total_amount, acc.locked_amount + o.quantity⟩⟩,
         m.assets,
         updateMap m.books o.asset
           ⟨book.asset_id, book.sell_orders ++ [o],
            stableSort Book.leOrders book.buy_orders⟩⟩ :=
      bill_fee_eq _ o.portfolio
        ⟨P.id, ⟨P.coins.total_amount - 1, P.coins.locked_amount⟩,
         updateMap P.assets o.asset
           ⟨acc.total_amount, acc.locked_amount + o.quantity⟩⟩ 1
        (lookupMap_updateMap_self (lookupMap_updateMap_self hP))
        (show P.coins.locked_amount + 1 ≤ P.coins.total_amount - 1 by omega)
    have hcan : (⟨m.bank_account + 1 + 1,
        updateMap (updateMap (updateMap m.portfolios o.portfolio
            ⟨P.id, ⟨P.coins.total_amount - 1, P.coins.locked_amount⟩,
             P.assets⟩)
          o.portfolio
          ⟨P.id, ⟨P.coins.total_amount - 1, P.coins.locked_amount⟩,
           updateMap P.assets o.asset
             ⟨acc.total_amount, acc.locked_amount + o.quantity⟩⟩)
         o.portfolio
         ⟨P.id, ⟨P.coins.total_amount - 1 - 1, P.coins.locked_amount⟩,
          updateMap P.assets o.asset
            ⟨acc.total_amount, acc.locked_amount + o.quantity⟩⟩,
        m.assets,
        updateMap m.books o.asset
          ⟨book.asset_id, book.sell_orders ++ [o],
           stableSort Book.leOrders book.buy_orders⟩⟩ : Market).cancel_order
        o.portfolio o.id o.asset = .ok
        ⟨m.bank_account + 1 + 1,
         updateMap (updateMap (updateMap (updateMap m.portfolios o.portfolio
             ⟨P.id, ⟨P.coins.total_amount - 1, P.coins.locked_amount⟩,
              P.assets⟩)
           o.portfolio
           ⟨P.id, ⟨P.coins.total_amount - 1, P.coins.locked_amount⟩,
            updateMap P.assets o.asset
              ⟨acc.total_amount, acc.locked_amount + o.quantity⟩⟩)
          o.portfolio
          ⟨P.id, ⟨P.coins.total_amount - 1 - 1, P.coins.locked_amount⟩,
           updateMap P.assets o.asset
             ⟨acc.total_amount, acc.locked_amount + o.quantity⟩⟩)
          o.portfolio
          ⟨P.id, ⟨P.coins.total_amount - 1 - 1, P.coins.locked_amount⟩,
           updateMap (updateMap P.assets o.asset
               ⟨acc.total_amount, acc.locked_amount + o.quantity⟩) o.asset
             ⟨acc.total_amount, acc.locked_amount + o.quantity - o.quantity⟩⟩,
         m.assets,
         updateMap (updateMap m.books o.asset
             ⟨book.asset_id, book.sell_orders ++ [o],
              stableSort Book.leOrders book.buy_orders⟩) o.asset
           ((⟨book.asset_id, book.sell_orders ++ [o],
              stableSort Book.leOrders book.buy_orders⟩ : Book).remove_order
             o.id)⟩ :=
      cancel_order_sell_eq _ o.portfolio o.id o.asset
        ⟨book.asset_id, book.sell_orders ++ [o],
         stableSort Book.leOrders book.buy_orders⟩ o l
        ⟨P.id, ⟨P.coins.total_amount - 1 - 1, P.coins.locked_amount⟩,
         updateMap P.assets o.asset
           ⟨acc.total_amount, acc.locked_amount + o.quantity⟩⟩
        ⟨acc.total_amount, acc.locked_amount + o.quantity⟩
        (lookupMap_updateMap_self hbook) hgetord rfl hside hmode
        (lookupMap_updateMap_self (lookupMap_updateMap_self
          (lookupMap_updateMap_self hP)))
        (lookupMap_updateMap_self hacc)
        (show o.quantity ≤ acc.locked_amount + o.quantity by omega)
    refine ⟨_, _, hproc1, process_cancel_eq _ _ _ o.portfolio o.id o.asset
        hbill2 hcan,
      ⟨P.id, ⟨P.coins.total_amount - 1 - 1, P.coins.locked_amount⟩,
       updateMap (updateMap P.assets o.asset
           ⟨acc.total_amount, acc.locked_amount + o.quantity⟩) o.asset
         ⟨acc.total_amount, acc.locked_amount + o.quantity - o.quantity⟩⟩,
      lookupMap_updateMap_self (lookupMap_updateMap_self
        (lookupMap_updateMap_self (lookupMap_updateMap_self hP))),
      ?_, rfl, ?_, ?_⟩
    · show P.coins.total_amount - 1 - 1 + 2 = P.coins.total_amount
      omega
    · intro a
      by_cases ha : a = o.asset
      · subst ha
        rw [lookupMap_updateMap_self (lookupMap_updateMap_self hacc), hacc]
        have hq5 : acc.locked_amount + o.quantity - o.quantity
            = acc.locked_amount := by omega
        rw [hq5]
      · rw [lookupMap_updateMap_ne ha, lookupMap_updateMap_ne ha]
    · show m.bank_account + 1 + 1 = m.bank_account + 2
      omega
  · -- Buy: quantity·limit coins are locked and released again
    have hBq := hbuy hside
    have hmul : l * o.quantity = o.quantity * l := Nat.mul_comm l o.quantity
    have hfill : (⟨m.bank_account + 1,
        updateMap m.portfolios o.portfolio
          ⟨P.id, ⟨P.coins.total_amount - 1, P.coins.locked_amount⟩, P.assets⟩,
        m.assets, m.books⟩ : Market).fill_order o = .ok
        ⟨m.bank_account + 1,
         updateMap (updateMap m.portfolios o.portfolio
             ⟨P.id, ⟨P.coins.total_amount - 1, P.coins.locked_amount⟩,
              P.assets⟩)
           o.portfolio
           ⟨P.id, ⟨P.coins.total_amount - 1,
             P.coins.locked_amount + o.quantity * l⟩, P.assets⟩,
         m.assets,
         updateMap m.books o.asset
           ⟨book.asset_id, book.sell_orders,
            stableSort Book.leOrders (book.buy_orders ++ [o])⟩⟩ := by
      rw [fill_order_no_candidates
        ⟨m.bank_account + 1,
         updateMap m.portfolios o.portfolio
           ⟨P.id, ⟨P.coins.total_amount - 1, P.coins.locked_amount⟩,
            P.assets⟩,
         m.assets, m.books⟩ o book hbook hcand]
      exact add_order_buy_eq _ o l
        ⟨P.id, ⟨P.coins.total_amount - 1, P.coins.locked_amount⟩, P.assets⟩
        book hside hmode (lookupMap_updateMap_self hP) hbook
        (show P.coins.locked_amount + o.quantity * l
          ≤ P.coins.total_amount - 1 by omega)
    have hproc1 : (⟨m⟩ : Engine).process (.Order o) =
        (⟨⟨m.bank_account + 1,
           updateMap (updateMap m.portfolios o.portfolio
               ⟨P.id, ⟨P.coins.total_amount - 1, P.coins.locked_amount⟩,
                P.assets⟩)
             o.portfolio
             ⟨P.id, ⟨P.coins.total_amount - 1,
               P.coins.locked_amount + o.quantity * l⟩, P.assets⟩,
           m.assets,
           updateMap m.books o.asset
             ⟨book.asset_id, book.sell_orders,
              stableSort Book.leOrders (book.buy_orders ++ [o])⟩⟩⟩, .ok ()) :=
      process_order_eq m _ _ o hbill1 hfill
    have hgetord : (⟨book.asset_id, book.sell_orders,
        stableSort Book.leOrders (book.buy_orders ++ [o])⟩ : Book).get_order
        o.id = .ok o := by
      unfold Book.get_order
      try simp only []
      rw [hfs]
      try simp only []
      rw [show (stableSort Book.leOrders (book.buy_orders ++ [o])).find?
          (fun ord => ord.id = o.id) = some o from
        find?_eq_of_unique (stableSort_perm _ _)
          (List.mem_append_right _ (by simp))
          (by simp)
          (fun y hy hpy => by
            rcases List.mem_append.mp hy with hb | hb
            · exact absurd (by simpa using hpy)
                (hfresh y (List.mem_append_right _ hb))
            · simpa using hb)]
    have hbill2 : (⟨m.bank_account + 1,
        updateMap (updateMap m.portfolios o.portfolio
            ⟨P.id, ⟨P.coins.total_amount - 1, P.coins.locked_amount⟩,
             P.assets⟩)
          o.portfolio
          ⟨P.id, ⟨P.coins.total_amount - 1,
            P.coins.locked_amount + o.quantity * l⟩, P.assets⟩,
        m.assets,
        updateMap m.books o.asset
          ⟨book.asset_id, book.sell_orders,
           stableSort Book.leOrders (book.buy_orders ++ [o])⟩⟩
          : Market).bill_fee o.portfolio 1 = .ok
        ⟨m.bank_account + 1 + 1,
         updateMap (updateMap (updateMap m.portfolios o.portfolio
             ⟨P.id, ⟨P.coins.total_amount - 1, P.coins.locked_amount⟩,
              P.assets⟩)
           o.portfolio
           ⟨P.id, ⟨P.coins.total_amount - 1,
             P.coins.locked_amount + o.quantity * l⟩, P.assets⟩)
          o.portfolio
          ⟨P.id, ⟨P.coins.total_amount - 1 - 1,
            P.coins.locked_amount + o.quantity * l⟩, P.assets⟩,
         m.assets,
         updateMap m.books o.asset
           ⟨book.asset_id, book.sell_orders,
            stableSort Book.leOrders (book.buy_orders ++ [o])⟩⟩ :=
      bill_fee_eq _ o.portfolio
        ⟨P.id, ⟨P.coins.total_amount - 1,
          P.coins.locked_amount + o.quantity * l⟩, P.assets⟩ 1
        (lookupMap_updateMap_self (lookupMap_updateMap_self hP))
        (show P.coins.locked_amount + o.quantity * l + 1
          ≤ P.coins.total_amount - 1 by omega)
    have hcan : (⟨m.bank_account + 1 + 1,
        updateMap (updateMap (updateMap m.portfolios o.portfolio
            ⟨P.id, ⟨P.coins.total_amount - 1, P.coins.locked_amount⟩,
             P.assets⟩)
          o.portfolio
          ⟨P.id, ⟨P.coins.total_amount - 1,
            P.coins.locked_amount + o.quantity * l⟩, P.assets⟩)
         o.portfolio
         ⟨P.id, ⟨P.coins.total_amount - 1 - 1,
           P.coins.locked_amount + o.quantity * l⟩, P.assets⟩,
        m.assets,
        updateMap m.books o.asset
          ⟨book.asset_id, book.sell_orders,
           stableSort Book.leOrders (book.buy_orders ++ [o])⟩⟩
          : Market).cancel_order o.portfolio o.id o.asset = .ok
        ⟨m.bank_account + 1 + 1,
         updateMap (updateMap (updateMap (updateMap m.portfolios o.portfolio
             ⟨P.id, ⟨P.coins.total_amount - 1, P.coins.locked_amount⟩,
              P.assets⟩)
           o.portfolio
           ⟨P.id, ⟨P.coins.total_amount - 1,
             P.coins.locked_amount + o.quantity * l⟩, P.assets⟩)
          o.portfolio
          ⟨P.id, ⟨P.coins.total_amount - 1 - 1,
            P.coins.locked_amount + o.quantity * l⟩, P.assets⟩)
          o.portfolio
          ⟨P.id, ⟨P.coins.total_amount - 1 - 1,
            P.coins.locked_amount + o.quantity * l - l * o.quantity⟩,
           P.assets⟩,
         m.assets,
         updateMap (updateMap m.books o.asset
             ⟨book.asset_id, book.sell_orders,
              stableSort Book.leOrders (book.buy_orders ++ [o])⟩) o.asset
           ((⟨book.asset_id, book.sell_orders,
              stableSort Book.leOrders (book.buy_orders ++ [o])⟩
                : Book).remove_order o.id)⟩ :=
      cancel_order_buy_eq _ o.portfolio o.id o.asset
        ⟨book.asset_id, book.sell_orders,
         stableSort Book.leOrders (book.buy_orders ++ [o])⟩ o l
        ⟨P.id, ⟨P.coins.total_amount - 1 - 1,
          P.coins.locked_amount + o.quantity * l⟩, P.assets⟩
        (lookupMap_updateMap_self hbook) hgetord rfl hside hmode
        (lookupMap_updateMap_self (lookupMap_updateMap_self
          (lookupMap_updateMap_self hP)))
        (show l * o.quantity
            ≤ P.coins.locked_amount + o.quantity * l by
          rw [hmul]
          omega)
    refine ⟨_, _, hproc1, process_cancel_eq _ _ _ o.portfolio o.id o.asset
        hbill2 hcan,
      ⟨P.id, ⟨P.coins.total_amount - 1 - 1,
        P.coins.locked_amount + o.quantity * l - l * o.quantity⟩, P.assets⟩,
      lookupMap_updateMap_self (lookupMap_updateMap_self
        (lookupMap_updateMap_self (lookupMap_updateMap_self hP))),
      ?_, ?_, ?_, ?_⟩
    · show P.coins.total_amount - 1 - 1 + 2 = P.coins.total_amount
      omega
    · show P.coins.locked_amount + o.quantity * l - l * o.quantity
        = P.coins.locked_amount
      rw [hmul]
      omega
    · intro a
      rfl
    · show m.bank_account + 1 + 1 = m.bank_account + 2
      omega

/-- Witness for C9: portfolio 1 places `Buy Limit(3)` of quantity 5 on the
empty book (15 coins locked) and cancels it; both events succeed, the coin
total drops from 1000 to 998 with nothing left locked, the asset account is
unchanged and the bank holds the 2 fee coins. -/
theorem C9_place_cancel_roundtrip_witness :
    ∃ en1 en2 : Engine,
      (⟨sampleMarket⟩ : Engine).process
          (.Order (sampleOrder 401 (.Limit 3) .Buy 5 1 1)) = (en1, .ok ()) ∧
      en1.process (.CancelOrder 1 401 42) = (en2, .ok ()) ∧
      ∃ P', lookupMap en2.market.portfolios 1 = some P' ∧
        P'.coins.total_amount + 2 = 1000 ∧
        P'.coins.locked_amount = 0 ∧
        (∀ a, lookupMap P'.assets a = lookupMap samplePortfolio1.assets a) ∧
        en2.market.bank_account = 0 + 2 :=
  C9_place_cancel_roundtrip sampleMarket (sampleOrder 401 (.Limit 3) .Buy 5 1 1)
    3 samplePortfolio1 ⟨42, [], []⟩ (by decide) (by decide) (by decide)
    (by decide) (by decide) (by decide) (fun h => by cases h)
    (fun _ => by decide)

end MarketGame
